import Mathlib

/-!
# ai-event-status-checker: a shallow embedding of `index.go`

The program reads `(name, url)` records from a CSV file, fetches every URL,
asks a chat-completion endpoint whether the page shows an open application
window and prints one line per record.

Modelling conventions

* Go `string` values are Lean `String`s (valid UTF-8 text).
* Go `int` is the 64-bit two's-complement integer of the usual targets: values
  are `Int`s and a result that can leave the range is reduced by `wrapInt`.
* `log.Fatal*` ends the process: a run carries an `Exit` that is `done`,
  `fatal f` or `crash p` (a Go runtime panic).
* The outside world (environment, file system, `encoding/csv`, `encoding/json`
  and the network) is a `World` of oracles.  A run is a pure function of the
  world and returns the trace of externally visible `Event`s.
-/

namespace EventChecker

/-! ## Machine integers -/

/-- Number of bits of a Go `int`. -/
def intBits : Nat := 64

/-- Largest Go `int`. -/
def maxInt : Int := 2 ^ (intBits - 1) - 1

/-- Smallest Go `int`. -/
def minInt : Int := -(2 ^ (intBits - 1))

/-- Two's-complement reduction of a mathematical integer to a Go `int`. -/
def wrapInt (x : Int) : Int :=
  (x + 2 ^ (intBits - 1)) % 2 ^ intBits - 2 ^ (intBits - 1)

/-- Runtime panics of the Go program. -/
inductive Panic where
  | indexOutOfRange
  | divideByZero
  deriving DecidableEq, Repr

deriving instance DecidableEq for Except

/-- Go `a / b` on `int`: truncated quotient, panics on a zero divisor. -/
def goDiv (a b : Int) : Except Panic Int :=
  if b = 0 then .error .divideByZero else .ok (wrapInt (Int.tdiv a b))

/-- Go `a % b` on `int`: remainder with the sign of the dividend. -/
def goMod (a b : Int) : Except Panic Int :=
  if b = 0 then .error .divideByZero else .ok (Int.tmod a b)

/-- Go `xs[i]` on a slice: panics outside `0 ≤ i < len(xs)`. -/
def goIndex {α : Type} (xs : List α) (i : Int) : Except Panic α :=
  if i < 0 then .error .indexOutOfRange
  else match xs.get? i.toNat with
    | some x => .ok x
    | none => .error .indexOutOfRange

/-! ## Strings -/

/-- Go `unicode.IsSpace`: the code points with the White_Space property. -/
def isSpace (c : Char) : Bool :=
  let n := c.toNat
  n == 0x09 || n == 0x0A || n == 0x0B || n == 0x0C || n == 0x0D || n == 0x20 ||
  n == 0x85 || n == 0xA0 || n == 0x1680 || (0x2000 ≤ n && n ≤ 0x200A) ||
  n == 0x2028 || n == 0x2029 || n == 0x202F || n == 0x205F || n == 0x3000

/-- Trimming on the list of code points. -/
def trimSpaceChars (cs : List Char) : List Char :=
  ((cs.dropWhile isSpace).reverse.dropWhile isSpace).reverse

/-- Go `strings.TrimSpace`: drops leading and trailing white space. -/
def TrimSpace (s : String) : String :=
  String.mk (trimSpaceChars s.data)

/-! ## Data model (`index.go`, lines 18-50) -/

structure ChatMessage where
  Role : String
  Content : String
  deriving DecidableEq, Repr

/-- The request object.  `Temperature` is a `float64` in the source; the
program only ever stores the constant `0` in it. -/
structure ChatCompletionRequest where
  Model : String
  Messages : List ChatMessage
  MaxTokens : Int
  Temperature : Int
  N : Int
  deriving DecidableEq, Repr

structure ChatCompletionChoice where
  Index : Int
  Message : ChatMessage
  FinishReason : String
  deriving DecidableEq, Repr

structure OpenAIUsage where
  PromptTokens : Int
  CompletionTokens : Int
  TotalTokens : Int
  deriving DecidableEq, Repr

structure ChatCompletionResponse where
  ID : String
  Object : String
  Created : Int
  Model : String
  Choices : List ChatCompletionChoice
  Usage : OpenAIUsage
  deriving DecidableEq, Repr

/-! ## Observable behaviour -/

/-- The lines the program writes to standard output. -/
inductive Line where
  | progress (percent : Int) (glyph : String)
  | invalidProgress
  | fetchFailed (url : String) (err : String)
  | accepting (name : String)
  | notAccepting (name : String)
  | undetermined (name : String)
  | complete
  deriving DecidableEq, Repr

/-- The text printed for a line (the `fmt.Printf` format strings). -/
def Line.text : Line → String
  | .progress percent glyph =>
      "\r\x1b[KProcessing... " ++ toString percent ++ "% complete " ++ glyph ++ " "
  | .invalidProgress =>
      "\r\x1b[KInvalid progress calculation: total records must be greater than 0.\n"
  | .fetchFailed url err =>
      "\r\x1b[KFailed to fetch data from " ++ url ++ ": " ++ err ++ "\n"
  | .accepting name =>
      "\r\x1b[KEvent at \"" ++ name ++ "\" is currently accepting applications.\n"
  | .notAccepting name =>
      "\r\x1b[KEvent at \"" ++ name ++ "\" is not accepting applications.\n"
  | .undetermined name =>
      "\r\x1b[KCould not determine if event at \"" ++ name ++ "\" is accepting applications.\n"
  | .complete => "\r\x1b[KProcessing complete.\n"

/-- The permanent per-record lines: a classification or a skip message. -/
def Line.isResult : Line → Bool
  | .fetchFailed _ _ => true
  | .accepting _ => true
  | .notAccepting _ => true
  | .undetermined _ => true
  | _ => false

/-- The conditions under which the program calls `log.Fatal*`. -/
inductive Fatal where
  | envLoad
  | openFile (err : String)
  | countLines (err : String)
  | noRecords
  | readHeaders (err : String)
  | missingName
  | missingUrl
  | readRecord (err : String)
  | encode (err : String)
  | noApiKey
  | send (err : String)
  | status (code : Int) (body : String)
  | decode (err : String)
  | noChoices
  deriving DecidableEq, Repr

/-- The message logged for a fatal condition. -/
def Fatal.message : Fatal → String
  | .envLoad => "Error loading .env file"
  | .openFile err => "Failed to open CSV file: " ++ err
  | .countLines err => "Failed to count lines in CSV file: " ++ err
  | .noRecords => "CSV file does not contain any records to process."
  | .readHeaders err => "Failed to read headers from CSV file: " ++ err
  | .missingName => "CSV does not contain required 'name' column"
  | .missingUrl => "CSV does not contain required 'url' column"
  | .readRecord err => "Failed to read a record from CSV file: " ++ err
  | .encode err => "Failed to encode request to JSON: " ++ err
  | .noApiKey => "OPENAI_API_KEY environment variable not set"
  | .send err => "Failed to send HTTP request: " ++ err
  | .status code body =>
      "OpenAI API request failed with status " ++ toString code ++ ": " ++ body
  | .decode err => "Failed to decode response: " ++ err
  | .noChoices => "No choices returned from OpenAI API"

/-- How a run ends. -/
inductive Exit where
  | done
  | fatal (f : Fatal)
  | crash (p : Panic)
  deriving DecidableEq, Repr

/-- Steps of a run, in the order they happen.  `get i url` and `post i body` are
the two outbound HTTP requests made for the record at position `i` (counted
from zero), `read` is one call of `reader.Read()`, `display current total` is
one call of `displayProgress` with these arguments, `print line` one line
written to standard output. -/
inductive Event where
  | read
  | display (current : Int) (total : Int)
  | get (i : Nat) (url : String)
  | post (i : Nat) (body : String)
  | print (line : Line)
  deriving DecidableEq, Repr

/-- The body of an HTTP response, a stream: `text` is what can be read from it
and `readErr` the error that breaks the reading off after that text, if any. -/
structure Body where
  text : String
  readErr : Option String
  deriving DecidableEq, Repr

/-- Result of one HTTP exchange: a transport failure, or a response with its
status code, status text and body. -/
inductive HttpResult where
  | failed (err : String)
  | response (statusCode : Int) (status : String) (body : Body)
  deriving DecidableEq, Repr

/-- Result of one `reader.Read()` that is not `io.EOF`: a record, or an error
(a malformed row, or a row whose number of fields differs from the header's). -/
abbrev ReadResult := Except String (List String)

/-- The environment of a run. -/
structure World where
  /-- Result of `godotenv.Load(".env")`. -/
  loadEnv : Except String Unit
  /-- Go `os.Getenv` after the load: the empty string when the variable is unset. -/
  getenv : String → String
  /-- Go `os.Open`. -/
  osOpen : String → Except String Unit
  /-- Go `os.ReadFile`: the raw text of the file. -/
  osReadFile : String → Except String String
  /-- What successive `reader.Read()` calls return before `io.EOF`. -/
  reads : List ReadResult
  /-- Go `http.Get` for the record at position `i`. -/
  httpGet : Nat → String → HttpResult
  /-- Go `json.Marshal` of the request. -/
  marshal : ChatCompletionRequest → Except String String
  /-- Go `client.Do` for the POST of record `i`, with body and bearer token. -/
  httpPost : Nat → String → String → HttpResult
  /-- Go `json.NewDecoder(resp.Body).Decode(&res)`: the decoder reads the body
  stream itself, so it is given the whole body. -/
  decode : Body → Except String ChatCompletionResponse

/-- A run: its trace, how it ended, and the last value of `processedRecords`. -/
structure Run where
  events : List Event
  exit : Exit
  processed : Int

/-- Events that happened before the rest of a run. -/
def Run.after (pre : List Event) (r : Run) : Run :=
  { r with events := pre ++ r.events }

/-! ## The program -/

/-- The `range` loop of `findIndex`, from position `i` on. -/
def findIndexFrom (i : Nat) : List String → String → Int
  | [], _ => -1
  | header :: rest, column =>
      if header = column then (i : Int) else findIndexFrom (i + 1) rest column

/-- Go `findIndex` (lines 172-179). -/
def findIndex (headers : List String) (column : String) : Int :=
  findIndexFrom 0 headers column

/-- Go `lineCounter` (lines 164-170) on the file text: `bytes.Count(data, "\n")`.
In UTF-8 the byte `0x0A` occurs only as the character `'\n'`. -/
def lineCounter (w : World) (fileName : String) : Except String Int :=
  match w.osReadFile fileName with
  | .error err => .error err
  | .ok data => .ok (data.data.count '\n')

/-- The spinner of `processEachRecord` (line 98). -/
def spinner : List String := ["|", "/", "-", "\\"]

/-- Go `displayProgress` (lines 136-143): the line it prints, or the panic it raises. -/
def displayProgress (current total : Int) (spinner : List String) : Except Panic Line :=
  if total ≤ 0 then .ok .invalidProgress
  else
    match goMod (wrapInt (current - 1)) spinner.length with
    | .error p => .error p
    | .ok spinnerIndex =>
      match goDiv (wrapInt (current * 100)) total with
      | .error p => .error p
      | .ok percent =>
        match goIndex spinner spinnerIndex with
        | .error p => .error p
        | .ok glyph => .ok (.progress percent glyph)

/-- Go `fetchPageContent` (lines 181-198) for the record at position `i`. -/
def fetchPageContent (w : World) (i : Nat) (url : String) :
    List Event × Except String String :=
  ([.get i url],
    match w.httpGet i url with
    | .failed err => .error ("failed to fetch URL: " ++ err)
    | .response statusCode status body =>
      if statusCode ≠ 200 then .error ("non-OK HTTP status: " ++ status)
      else match body.readErr with
        | some err => .error ("failed to read response body: " ++ err)
        | none => .ok body.text)

/-- The `bodyBytes, _ := io.ReadAll(resp.Body)` of line 222: the read error is
dropped and the text read before it is kept. -/
def readAllIgnoringError (body : Body) : String :=
  body.text

/-- Go `postData` (lines 200-236) for the record at position `i`.  The request is
built from a constant method and URL, so `http.NewRequest` cannot fail. -/
def postData (w : World) (i : Nat) (data : String) : List Event × Except Fatal String :=
  let apiKey := w.getenv "OPENAI_API_KEY"
  if apiKey = "" then ([], .error .noApiKey)
  else
    ([.post i data],
      match w.httpPost i data apiKey with
      | .failed err => .error (.send err)
      | .response statusCode _ body =>
        if statusCode ≠ 200 then
          .error (.status statusCode (readAllIgnoringError body))
        else
          match w.decode body with
          | .error err => .error (.decode err)
          | .ok res =>
            match res.Choices with
            | [] => .error .noChoices
            | choice :: _ => .ok (TrimSpace choice.Message.Content))

/-- The prompt of `queryModel` (line 146). -/
def prompt (pageContent : String) : String :=
  "Based on the following webpage content, determine if the event is currently accepting applications. Answer only with 'yes' or 'no'. Content:\n" ++ pageContent

/-- The request object built by `queryModel` (lines 148-154). -/
def queryRequest (pageContent : String) : ChatCompletionRequest :=
  { Model := "gpt-4o-mini"
    Messages := [{ Role := "user", Content := prompt pageContent }]
    MaxTokens := 5
    Temperature := 0
    N := 1 }

/-- Go `queryModel` (lines 145-162) for the record at position `i`. -/
def queryModel (w : World) (i : Nat) (pageContent : String) :
    List Event × Except Fatal String :=
  match w.marshal (queryRequest pageContent) with
  | .error err => ([], .error (.encode err))
  | .ok jsonData => postData w i jsonData

/-- The classification line of `processEachRecord` (lines 124-130). -/
def classificationLine (name responseData : String) : Line :=
  if TrimSpace responseData = "yes" then .accepting name
  else if TrimSpace responseData = "no" then .notAccepting name
  else .undetermined name

/-- How one iteration of the loop ends: it goes on to the next `Read()`
(`continue`, or the end of the body), or the process ends. -/
inductive Step where
  | next (events : List Event)
  | stop (events : List Event) (exit : Exit)

/-- The body of the `for` loop of `processEachRecord` after a record was read
and counted (lines 111-130): `i` is the position of the record and
`processedRecords` the counter after its increment. -/
def loopBody (w : World) (nameIndex urlIndex totalRecords : Int) (spinner : List String)
    (i : Nat) (processedRecords : Int) (record : List String) : Step :=
  match displayProgress processedRecords totalRecords spinner with
  | .error p => .stop [.display processedRecords totalRecords] (.crash p)
  | .ok line =>
    let shown : List Event := [.display processedRecords totalRecords, .print line]
    match goIndex record nameIndex with
    | .error p => .stop shown (.crash p)
    | .ok name =>
      match goIndex record urlIndex with
      | .error p => .stop shown (.crash p)
      | .ok url =>
        match fetchPageContent w i url with
        | (fetched, .error err) => .next (shown ++ fetched ++ [.print (.fetchFailed url err)])
        | (fetched, .ok pageContent) =>
          match queryModel w i pageContent with
          | (asked, .error f) => .stop (shown ++ fetched ++ asked) (.fatal f)
          | (asked, .ok responseData) =>
              .next (shown ++ fetched ++ asked ++
                [.print (classificationLine name responseData)])

/-- The `for` loop of `processEachRecord` (lines 101-131) followed by the
closing message: `i` is the position of the next record, `processedRecords`
the counter, the list holds what the remaining `reader.Read()` calls return
before `io.EOF`. -/
def processLoop (w : World) (nameIndex urlIndex totalRecords : Int) (spinner : List String) :
    Nat → Int → List ReadResult → Run
  | _, processedRecords, [] =>
      ⟨[.read, .print .complete], .done, processedRecords⟩
  | _, processedRecords, .error err :: _ =>
      ⟨[.read], .fatal (.readRecord err), processedRecords⟩
  | i, processedRecords, .ok record :: rest =>
      let processedRecords := wrapInt (processedRecords + 1)
      match loopBody w nameIndex urlIndex totalRecords spinner i processedRecords record with
      | .stop events exit => ⟨.read :: events, exit, processedRecords⟩
      | .next events =>
          (processLoop w nameIndex urlIndex totalRecords spinner (i + 1)
            processedRecords rest).after (.read :: events)

/-- Go `processEachRecord` (lines 97-134) on a reader whose remaining `Read()`
calls return `reads`. -/
def processEachRecord (w : World) (reads : List ReadResult)
    (nameIndex urlIndex totalRecords : Int) : Run :=
  processLoop w nameIndex urlIndex totalRecords spinner 0 0 reads

/-- Go `processRecords` (lines 61-95).  The subtraction of line 93 is only
reached with `totalRecords ≥ 2`, so it cannot overflow. -/
def processRecords (w : World) (csvFileName : String) : Run :=
  match w.osOpen csvFileName with
  | .error err => ⟨[], .fatal (.openFile err), 0⟩
  | .ok _ =>
    match lineCounter w csvFileName with
    | .error err => ⟨[], .fatal (.countLines err), 0⟩
    | .ok totalRecords =>
      if totalRecords ≤ 1 then ⟨[], .fatal .noRecords, 0⟩
      else
        match w.reads with
        | [] => ⟨[.read], .fatal (.readHeaders "EOF"), 0⟩
        | .error err :: _ => ⟨[.read], .fatal (.readHeaders err), 0⟩
        | .ok headers :: rest =>
          let nameIndex := findIndex headers "name"
          if nameIndex = -1 then ⟨[.read], .fatal .missingName, 0⟩
          else
            let urlIndex := findIndex headers "url"
            if urlIndex = -1 then ⟨[.read], .fatal .missingUrl, 0⟩
            else
              let totalRecords := totalRecords - 1
              (processEachRecord w rest nameIndex urlIndex totalRecords).after [.read]

/-- Go `main` (lines 52-59). -/
def main (w : World) : Run :=
  match w.loadEnv with
  | .error _ => ⟨[], .fatal .envLoad, 0⟩
  | .ok _ => processRecords w "urls.csv"

/-! ## Observations on traces -/

/-- The record position of an outbound HTTP request; `none` for other events. -/
def Event.index? : Event → Option Nat
  | .get i _ => some i
  | .post i _ => some i
  | _ => none

/-- An outbound HTTP request. -/
def Event.isHttp (e : Event) : Bool :=
  e.index?.isSome

/-- The events of one iteration. -/
def Step.events : Step → List Event
  | .next events => events
  | .stop events _ => events

/-- A printed classification or skip line. -/
def Event.isResult : Event → Bool
  | .print line => line.isResult
  | _ => false

/-- Number of permanent classification-or-skip lines of a trace. -/
def resultLines (events : List Event) : Nat :=
  (events.filter Event.isResult).length

/-- Number of `reader.Read()` calls of a trace. -/
def readCalls (events : List Event) : Nat :=
  events.count .read

/-- The arguments `(current, total)` of the `displayProgress` calls of a trace. -/
def displayCalls : List Event → List (Int × Int)
  | [] => []
  | .display current total :: rest => (current, total) :: displayCalls rest
  | _ :: rest => displayCalls rest

/-- A `Read()` result that is a record. -/
def isRecord : ReadResult → Bool
  | .ok _ => true
  | .error _ => false

/-- Number of records among the first `n` results of the reader. -/
def recordsRead (reads : List ReadResult) (n : Nat) : Nat :=
  ((reads.take n).filter isRecord).length

/-- The fatal conditions raised by the classification call (`queryModel` and
`postData`). -/
def Fatal.fromClassifier : Fatal → Bool
  | .encode _ => true
  | .noApiKey => true
  | .send _ => true
  | .status _ _ => true
  | .decode _ => true
  | .noChoices => true
  | _ => false

/-! ## Sample worlds -/

/-- A completion response whose only choice carries `content`. -/
def answer (content : String) : ChatCompletionResponse :=
  { ID := "chatcmpl-1", Object := "chat.completion", Created := 0, Model := "gpt-4o-mini"
    Choices := [{ Index := 0, Message := { Role := "assistant", Content := content },
                  FinishReason := "stop" }]
    Usage := { PromptTokens := 0, CompletionTokens := 0, TotalTokens := 0 } }

/-- A world in which `urls.csv` has the text `file`, the CSV reader yields
`reads`, every page under `https://good.example` is served with status 200,
every other page is unreachable, the variable `OPENAI_API_KEY` holds `key`, and
the completion endpoint answers `reply` to every request. -/
def sampleWorld (file : String) (reads : List ReadResult) (key reply : String) : World :=
  { loadEnv := .ok ()
    getenv := fun name => if name = "OPENAI_API_KEY" then key else ""
    osOpen := fun _ => .ok ()
    osReadFile := fun _ => .ok file
    reads := reads
    httpGet := fun _ url =>
      if url = "https://good.example" then
        .response 200 "200 OK" ⟨"<html>Apply now</html>", none⟩
      else .failed "dial tcp: no such host"
    marshal := fun request => .ok ("model=" ++ request.Model)
    httpPost := fun _ _ _ => .response 200 "200 OK" ⟨reply, none⟩
    decode := fun body => .ok (answer body.text) }

/-- The header row `name,url`. -/
def headerRow : ReadResult := .ok ["name", "url"]

/-- A record whose page is served. -/
def rowA : ReadResult := .ok ["EventA", "https://good.example"]

/-- A record whose page is unreachable. -/
def rowB : ReadResult := .ok ["EventB", "https://bad.example"]

/-- One data row, the file ends without a newline character. -/
def unterminatedWorld : World :=
  sampleWorld "name,url\nEventA,https://good.example" [headerRow, rowA] "sk" "yes"

/-- The same data row followed by a newline character. -/
def terminatedWorld : World :=
  sampleWorld "name,url\nEventA,https://good.example\n" [headerRow, rowA] "sk" "yes"

/-- The credential is not set and the page of the only record is served. -/
def noKeyWorld : World :=
  sampleWorld "name,url\nEventA,https://good.example\n" [headerRow, rowA] "" "yes"

/-- The credential is not set and the page of the only record is unreachable. -/
def noKeyUnreachableWorld : World :=
  sampleWorld "name,url\nEventB,https://bad.example\n" [headerRow, rowB] "" "yes"

/-- A header without `name` and `url`, and no data row. -/
def foreignHeaderWorld : World :=
  sampleWorld "title,link\n" [.ok ["title", "link"]] "sk" "yes"

/-- A header without `name` and `url`, followed by two data rows. -/
def foreignHeaderRowsWorld : World :=
  sampleWorld "title,link\nEventA,https://good.example\nEventB,https://bad.example\n"
    [.ok ["title", "link"], rowA, rowB] "sk" "yes"

/-- A header row and no data row; the third header field is quoted and spans
two lines, so the file holds two newline characters. -/
def quotedHeaderWorld : World :=
  sampleWorld "name,url,\"a\nb\"\n" [.ok ["name", "url", "a\nb"]] "sk" "yes"

/-- Two data rows: the first page is unreachable, the second is served. -/
def skipWorld : World :=
  sampleWorld "name,url\nEventB,https://bad.example\nEventA,https://good.example\n"
    [headerRow, rowB, rowA] "sk" "yes"


/-! ## Machine arithmetic -/

theorem wrapInt_of_range (x : Int) (hlo : minInt ≤ x) (hhi : x ≤ maxInt) : wrapInt x = x := by
  unfold wrapInt
  unfold minInt at hlo
  unfold maxInt at hhi
  simp only [intBits] at *
  norm_num at *
  omega

/-! ## `findIndex` -/

theorem findIndexFrom_eq_neg_one (k : Nat) (headers : List String) (c : String) :
    findIndexFrom k headers c = -1 ↔ c ∉ headers := by
  induction headers generalizing k with
  | nil => simp [findIndexFrom]
  | cons h t ih =>
    unfold findIndexFrom
    by_cases hc : h = c
    · subst hc
      simp only [if_true, List.mem_cons, true_or, not_true_eq_false, iff_false]
      omega
    · have hc2 : ¬ c = h := fun e => hc e.symm
      simp [hc, hc2, ih]

theorem findIndexFrom_first (k : Nat) (headers : List String) (c : String)
    (hmem : c ∈ headers) :
    ∃ i : Nat, findIndexFrom k headers c = ((k + i : Nat) : Int) ∧ i < headers.length ∧
      headers.get? i = some c ∧ ∀ j, j < i → headers.get? j ≠ some c := by
  induction headers generalizing k with
  | nil => simp at hmem
  | cons h t ih =>
    unfold findIndexFrom
    by_cases hc : h = c
    · subst hc
      exact ⟨0, by simp, by simp, by simp, by intro j hj; omega⟩
    · have hc2 : ¬ c = h := fun e => hc e.symm
      have hmem2 : c ∈ t := by simpa [hc2] using hmem
      obtain ⟨i, h1, h2, h3, h4⟩ := ih (k + 1) hmem2
      refine ⟨i + 1, ?_, by simpa using h2, by simpa using h3, ?_⟩
      · simp only [hc, if_false, h1]
        congr 1
        omega
      · intro j hj
        cases j with
        | zero => simpa using hc
        | succ j => simpa using h4 j (by omega)

/-! ## `displayProgress` -/

theorem goIndex_spinner (m : Int) (h0 : 0 ≤ m) (h4 : m < 4) :
    ∃ glyph, spinner.get? m.toNat = some glyph ∧ goIndex spinner m = .ok glyph := by
  have hcases : m = 0 ∨ m = 1 ∨ m = 2 ∨ m = 3 := by omega
  rcases hcases with h | h | h | h <;> subst h
  · exact ⟨"|", by decide, by decide⟩
  · exact ⟨"/", by decide, by decide⟩
  · exact ⟨"-", by decide, by decide⟩
  · exact ⟨"\\", by decide, by decide⟩

theorem displayProgress_invalid (k n : Int) (glyphs : List String) (hn : n ≤ 0) :
    displayProgress k n glyphs = .ok .invalidProgress := by
  simp [displayProgress, hn]

theorem displayProgress_valid (k n : Int) (hn : 0 < n) (hk : 1 ≤ k) (hmul : k * 100 ≤ maxInt) :
    ∃ glyph, spinner.get? ((k - 1) % 4).toNat = some glyph ∧
      displayProgress k n spinner = .ok (.progress (k * 100 / n) glyph) := by
  have hmax : maxInt = 9223372036854775807 := by decide
  have hmin : minInt = -9223372036854775808 := by decide
  have hn' : ¬ n ≤ 0 := by omega
  have hw1 : wrapInt (k - 1) = k - 1 := wrapInt_of_range _ (by omega) (by omega)
  have hw2 : wrapInt (k * 100) = k * 100 := wrapInt_of_range _ (by omega) (by omega)
  have hlen : ((spinner.length : Nat) : Int) = 4 := by decide
  have hmod : goMod (k - 1) 4 = .ok ((k - 1) % 4) := by
    unfold goMod
    rw [if_neg (by decide), Int.tmod_eq_emod (by omega) (by decide)]
  have hq0 : 0 ≤ k * 100 / n := Int.ediv_nonneg (by omega) (by omega)
  have hq1 : k * 100 / n ≤ k * 100 := Int.ediv_le_self _ (by omega)
  have hdiv : goDiv (k * 100) n = .ok (k * 100 / n) := by
    unfold goDiv
    rw [if_neg (by omega), Int.tdiv_eq_ediv (by omega) (by omega),
      wrapInt_of_range _ (by omega) (by omega)]
  obtain ⟨glyph, hg1, hg2⟩ := goIndex_spinner ((k - 1) % 4) (by omega) (by omega)
  refine ⟨glyph, hg1, ?_⟩
  unfold displayProgress
  rw [if_neg hn', hw1, hw2, hlen, hmod]
  simp only [hdiv, hg2]

/-! ## `strings.TrimSpace` -/

theorem trimSpaceChars_eq_iff (cs t u v : List Char) (a b : Char)
    (ht : t = a :: u) (hrev : t.reverse = b :: v)
    (ha : isSpace a = false) (hb : isSpace b = false) :
    trimSpaceChars cs = t ↔
      ∃ l r, (∀ c ∈ l, isSpace c = true) ∧ (∀ c ∈ r, isSpace c = true) ∧ cs = l ++ t ++ r := by
  constructor
  · intro h
    refine ⟨cs.takeWhile isSpace, ((cs.dropWhile isSpace).reverse.takeWhile isSpace).reverse,
      fun c hc => List.mem_takeWhile_imp hc, ?_, ?_⟩
    · intro c hc
      exact List.mem_takeWhile_imp (List.mem_reverse.mp hc)
    · have h1 : (cs.dropWhile isSpace).reverse.dropWhile isSpace = t.reverse := by
        unfold trimSpaceChars at h
        rw [← h, List.reverse_reverse]
      have h2 := List.takeWhile_append_dropWhile isSpace (cs.dropWhile isSpace).reverse
      rw [h1] at h2
      have h3 : cs.dropWhile isSpace =
          t ++ ((cs.dropWhile isSpace).reverse.takeWhile isSpace).reverse := by
        have := congrArg List.reverse h2
        simpa using this.symm
      have h4 := List.takeWhile_append_dropWhile isSpace cs
      rw [List.append_assoc, ← h3, h4]
  · rintro ⟨l, r, hl, hr, rfl⟩
    unfold trimSpaceChars
    have hr2 : ∀ c ∈ r.reverse, isSpace c = true := fun c hc => hr c (List.mem_reverse.mp hc)
    rw [List.append_assoc, List.dropWhile_append_of_pos hl, ht, List.cons_append,
      List.dropWhile_cons_of_neg (by simp [ha]), ← List.cons_append, ← ht, List.reverse_append,
      List.dropWhile_append_of_pos hr2, hrev, List.dropWhile_cons_of_neg (by simp [hb]),
      ← hrev, List.reverse_reverse]

theorem TrimSpace_eq_iff (s t : String) : TrimSpace s = t ↔ trimSpaceChars s.data = t.data := by
  unfold TrimSpace
  constructor
  · intro h
    rw [← h]
  · intro h
    rw [h]

/-! ## `postData` and `queryModel` -/

theorem postData_events (w : World) (i : Nat) (data : String) :
    (postData w i data).1 = [] ∨ (postData w i data).1 = [.post i data] := by
  unfold postData
  by_cases h : w.getenv "OPENAI_API_KEY" = "" <;> simp [h]

theorem queryModel_events (w : World) (i : Nat) (pageContent : String) :
    (queryModel w i pageContent).1 = [] ∨
      ∃ body, (queryModel w i pageContent).1 = [.post i body] := by
  unfold queryModel
  cases hm : w.marshal (queryRequest pageContent) with
  | error err => exact Or.inl rfl
  | ok jsonData =>
    rcases postData_events w i jsonData with h | h
    · exact Or.inl h
    · exact Or.inr ⟨jsonData, h⟩

theorem postData_no_key (w : World) (i : Nat) (data : String)
    (hkey : w.getenv "OPENAI_API_KEY" = "") :
    postData w i data = ([], .error .noApiKey) := by
  simp [postData, hkey]

theorem queryModel_no_key (w : World) (i : Nat) (pageContent : String)
    (hkey : w.getenv "OPENAI_API_KEY" = "") :
    (queryModel w i pageContent).1 = [] ∧
      ((queryModel w i pageContent).2 = .error .noApiKey ∨
        ∃ err, (queryModel w i pageContent).2 = .error (.encode err)) := by
  unfold queryModel
  cases hm : w.marshal (queryRequest pageContent) with
  | error err => exact ⟨rfl, Or.inr ⟨err, rfl⟩⟩
  | ok jsonData =>
    simp [postData_no_key w i jsonData hkey]

theorem displayProgress_not_result (k n : Int) (glyphs : List String) (line : Line)
    (h : displayProgress k n glyphs = .ok line) : line.isResult = false := by
  unfold displayProgress at h
  split at h
  · injection h with h
    subst h
    rfl
  · split at h
    · cases h
    · split at h
      · cases h
      · split at h
        · cases h
        · injection h with h
          subst h
          rfl

theorem displayProgress_ok (k n : Int) (hk : 1 ≤ k) (hmax : k ≤ maxInt) :
    ∃ line, displayProgress k n spinner = .ok line := by
  by_cases hn : n ≤ 0
  · exact ⟨_, displayProgress_invalid k n spinner hn⟩
  · have hmaxv : maxInt = 9223372036854775807 := by decide
    have hminv : minInt = -9223372036854775808 := by decide
    have hw1 : wrapInt (k - 1) = k - 1 := wrapInt_of_range _ (by omega) (by omega)
    have hlen : ((spinner.length : Nat) : Int) = 4 := by decide
    have hmod : goMod (k - 1) 4 = .ok ((k - 1) % 4) := by
      unfold goMod
      rw [if_neg (by decide), Int.tmod_eq_emod (by omega) (by decide)]
    have hdiv : goDiv (wrapInt (k * 100)) n = .ok (wrapInt (Int.tdiv (wrapInt (k * 100)) n)) := by
      unfold goDiv
      rw [if_neg (by omega)]
    obtain ⟨glyph, _, hg⟩ := goIndex_spinner ((k - 1) % 4) (by omega) (by omega)
    refine ⟨.progress (wrapInt (Int.tdiv (wrapInt (k * 100)) n)) glyph, ?_⟩
    unfold displayProgress
    rw [if_neg hn, hw1, hlen, hmod]
    simp only [hdiv, hg]

/-! ## The loop body -/

theorem fetchPageContent_events (w : World) (i : Nat) (url : String) :
    (fetchPageContent w i url).1 = [.get i url] := rfl

theorem fetchPageContent_eq (w : World) (i : Nat) (url : String) :
    fetchPageContent w i url = ([.get i url], (fetchPageContent w i url).2) := rfl

theorem loopBody_crash_display (w : World) (nameIndex urlIndex totalRecords : Int) (i : Nat)
    (processed : Int) (record : List String) (p : Panic)
    (hd : displayProgress processed totalRecords spinner = .error p) :
    loopBody w nameIndex urlIndex totalRecords spinner i processed record =
      .stop [.display processed totalRecords] (.crash p) := by
  unfold loopBody
  simp only [hd]

theorem loopBody_crash_name (w : World) (nameIndex urlIndex totalRecords : Int) (i : Nat)
    (processed : Int) (record : List String) (line : Line) (p : Panic)
    (hd : displayProgress processed totalRecords spinner = .ok line)
    (hn : goIndex record nameIndex = .error p) :
    loopBody w nameIndex urlIndex totalRecords spinner i processed record =
      .stop [.display processed totalRecords, .print line] (.crash p) := by
  unfold loopBody
  simp only [hd, hn]

theorem loopBody_crash_url (w : World) (nameIndex urlIndex totalRecords : Int) (i : Nat)
    (processed : Int) (record : List String) (line : Line) (name : String) (p : Panic)
    (hd : displayProgress processed totalRecords spinner = .ok line)
    (hn : goIndex record nameIndex = .ok name)
    (hu : goIndex record urlIndex = .error p) :
    loopBody w nameIndex urlIndex totalRecords spinner i processed record =
      .stop [.display processed totalRecords, .print line] (.crash p) := by
  unfold loopBody
  simp only [hd, hn, hu]

theorem loopBody_fetch_failed (w : World) (nameIndex urlIndex totalRecords : Int) (i : Nat)
    (processed : Int) (record : List String) (line : Line) (name url err : String)
    (hd : displayProgress processed totalRecords spinner = .ok line)
    (hn : goIndex record nameIndex = .ok name)
    (hu : goIndex record urlIndex = .ok url)
    (hf : (fetchPageContent w i url).2 = .error err) :
    loopBody w nameIndex urlIndex totalRecords spinner i processed record =
      .next [.display processed totalRecords, .print line, .get i url,
        .print (.fetchFailed url err)] := by
  have hf2 : fetchPageContent w i url = ([.get i url], .error err) :=
    Prod.ext (fetchPageContent_events w i url) hf
  unfold loopBody
  simp [hd, hn, hu, hf2]

theorem loopBody_query_failed (w : World) (nameIndex urlIndex totalRecords : Int) (i : Nat)
    (processed : Int) (record : List String) (line : Line) (name url pageContent : String)
    (asked : List Event) (f : Fatal)
    (hd : displayProgress processed totalRecords spinner = .ok line)
    (hn : goIndex record nameIndex = .ok name)
    (hu : goIndex record urlIndex = .ok url)
    (hf : (fetchPageContent w i url).2 = .ok pageContent)
    (hq : queryModel w i pageContent = (asked, .error f)) :
    loopBody w nameIndex urlIndex totalRecords spinner i processed record =
      .stop ([.display processed totalRecords, .print line, .get i url] ++ asked)
        (.fatal f) := by
  have hf2 : fetchPageContent w i url = ([.get i url], .ok pageContent) :=
    Prod.ext (fetchPageContent_events w i url) hf
  unfold loopBody
  simp [hd, hn, hu, hf2, hq]

theorem loopBody_classified (w : World) (nameIndex urlIndex totalRecords : Int) (i : Nat)
    (processed : Int) (record : List String) (line : Line) (name url pageContent : String)
    (asked : List Event) (s : String)
    (hd : displayProgress processed totalRecords spinner = .ok line)
    (hn : goIndex record nameIndex = .ok name)
    (hu : goIndex record urlIndex = .ok url)
    (hf : (fetchPageContent w i url).2 = .ok pageContent)
    (hq : queryModel w i pageContent = (asked, .ok s)) :
    loopBody w nameIndex urlIndex totalRecords spinner i processed record =
      .next ([.display processed totalRecords, .print line, .get i url] ++ asked ++
        [.print (classificationLine name s)]) := by
  have hf2 : fetchPageContent w i url = ([.get i url], .ok pageContent) :=
    Prod.ext (fetchPageContent_events w i url) hf
  unfold loopBody
  simp [hd, hn, hu, hf2, hq]

/-- The five ways an iteration can go. -/
theorem loopBody_cases (w : World) (nameIndex urlIndex totalRecords : Int) (i : Nat)
    (processed : Int) (record : List String) :
    (∃ p, displayProgress processed totalRecords spinner = .error p ∧
      loopBody w nameIndex urlIndex totalRecords spinner i processed record =
        .stop [.display processed totalRecords] (.crash p)) ∨
    (∃ line p, displayProgress processed totalRecords spinner = .ok line ∧
      (goIndex record nameIndex = .error p ∨
        ((∃ name, goIndex record nameIndex = .ok name) ∧ goIndex record urlIndex = .error p)) ∧
      loopBody w nameIndex urlIndex totalRecords spinner i processed record =
        .stop [.display processed totalRecords, .print line] (.crash p)) ∨
    (∃ line name url err, displayProgress processed totalRecords spinner = .ok line ∧
      goIndex record nameIndex = .ok name ∧ goIndex record urlIndex = .ok url ∧
      (fetchPageContent w i url).2 = .error err ∧
      loopBody w nameIndex urlIndex totalRecords spinner i processed record =
        .next [.display processed totalRecords, .print line, .get i url,
          .print (.fetchFailed url err)]) ∨
    (∃ line name url pageContent asked f,
      displayProgress processed totalRecords spinner = .ok line ∧
      goIndex record nameIndex = .ok name ∧ goIndex record urlIndex = .ok url ∧
      (fetchPageContent w i url).2 = .ok pageContent ∧
      queryModel w i pageContent = (asked, .error f) ∧
      loopBody w nameIndex urlIndex totalRecords spinner i processed record =
        .stop ([.display processed totalRecords, .print line, .get i url] ++ asked)
          (.fatal f)) ∨
    (∃ line name url pageContent asked s,
      displayProgress processed totalRecords spinner = .ok line ∧
      goIndex record nameIndex = .ok name ∧ goIndex record urlIndex = .ok url ∧
      (fetchPageContent w i url).2 = .ok pageContent ∧
      queryModel w i pageContent = (asked, .ok s) ∧
      loopBody w nameIndex urlIndex totalRecords spinner i processed record =
        .next ([.display processed totalRecords, .print line, .get i url] ++ asked ++
          [.print (classificationLine name s)])) := by
  cases hd : displayProgress processed totalRecords spinner with
  | error p => exact Or.inl ⟨p, rfl, loopBody_crash_display _ _ _ _ _ _ _ _ hd⟩
  | ok line =>
    right
    cases hn : goIndex record nameIndex with
    | error p =>
      exact Or.inl ⟨line, p, rfl, Or.inl rfl, loopBody_crash_name _ _ _ _ _ _ _ _ _ hd hn⟩
    | ok name =>
      cases hu : goIndex record urlIndex with
      | error p =>
        exact Or.inl ⟨line, p, rfl, Or.inr ⟨⟨name, rfl⟩, rfl⟩,
          loopBody_crash_url _ _ _ _ _ _ _ _ _ _ hd hn hu⟩
      | ok url =>
        right
        cases hf : (fetchPageContent w i url).2 with
        | error err =>
          exact Or.inl ⟨line, name, url, err, rfl, rfl, rfl, hf,
            loopBody_fetch_failed _ _ _ _ _ _ _ _ _ _ _ hd hn hu hf⟩
        | ok pageContent =>
          right
          cases hr : (queryModel w i pageContent).2 with
          | error f =>
            have hq : queryModel w i pageContent = ((queryModel w i pageContent).1, .error f) :=
              Prod.ext rfl hr
            exact Or.inl ⟨line, name, url, pageContent, _, f, rfl, rfl, rfl, hf, hq,
              loopBody_query_failed _ _ _ _ _ _ _ _ _ _ _ _ _ hd hn hu hf hq⟩
          | ok s =>
            have hq : queryModel w i pageContent = ((queryModel w i pageContent).1, .ok s) :=
              Prod.ext rfl hr
            exact Or.inr ⟨line, name, url, pageContent, _, s, rfl, rfl, rfl, hf, hq,
              loopBody_classified _ _ _ _ _ _ _ _ _ _ _ _ _ hd hn hu hf hq⟩

theorem loopBody_observed (w : World) (nameIndex urlIndex totalRecords : Int) (i : Nat)
    (processed : Int) (record : List String) :
    (∀ e ∈ (loopBody w nameIndex urlIndex totalRecords spinner i processed record).events,
      e.index? = none ∨ e.index? = some i) ∧
    displayCalls (loopBody w nameIndex urlIndex totalRecords spinner i processed record).events =
      [(processed, totalRecords)] ∧
    readCalls (loopBody w nameIndex urlIndex totalRecords spinner i processed record).events = 0 ∧
    (∀ events, loopBody w nameIndex urlIndex totalRecords spinner i processed record ≠
      .stop events .done) := by
  rcases loopBody_cases w nameIndex urlIndex totalRecords i processed record with
    ⟨p, _, h⟩ | ⟨line, p, _, _, h⟩ | ⟨line, name, url, err, _, _, _, _, h⟩ |
    ⟨line, name, url, page, asked, f, _, _, _, _, hq, h⟩ |
    ⟨line, name, url, page, asked, s, _, _, _, _, hq, h⟩
  · rw [h]
    simp [Step.events, Event.index?, displayCalls, readCalls]
  · rw [h]
    simp [Step.events, Event.index?, displayCalls, readCalls]
  · rw [h]
    simp [Step.events, Event.index?, displayCalls, readCalls]
  · rw [h]
    have hasked : asked = (queryModel w i page).1 := by rw [hq]
    rcases queryModel_events w i page with h0 | ⟨body, h1⟩
    · rw [h0] at hasked
      subst hasked
      simp [Step.events, Event.index?, displayCalls, readCalls]
    · rw [h1] at hasked
      subst hasked
      simp [Step.events, Event.index?, displayCalls, readCalls]
  · rw [h]
    have hasked : asked = (queryModel w i page).1 := by rw [hq]
    rcases queryModel_events w i page with h0 | ⟨body, h1⟩
    · rw [h0] at hasked
      subst hasked
      simp [Step.events, Event.index?, displayCalls, readCalls]
    · rw [h1] at hasked
      subst hasked
      simp [Step.events, Event.index?, displayCalls, readCalls]

/-! ## The loop -/

theorem processLoop_nil (w : World) (nameIndex urlIndex totalRecords : Int) (i : Nat)
    (processed : Int) :
    processLoop w nameIndex urlIndex totalRecords spinner i processed [] =
      ⟨[.read, .print .complete], .done, processed⟩ := by
  simp [processLoop]

theorem processLoop_error (w : World) (nameIndex urlIndex totalRecords : Int) (i : Nat)
    (processed : Int) (err : String) (rest : List ReadResult) :
    processLoop w nameIndex urlIndex totalRecords spinner i processed (.error err :: rest) =
      ⟨[.read], .fatal (.readRecord err), processed⟩ := by
  simp [processLoop]

theorem processLoop_stop (w : World) (nameIndex urlIndex totalRecords : Int) (i : Nat)
    (processed : Int) (record : List String) (rest : List ReadResult)
    (events : List Event) (exit : Exit)
    (h : loopBody w nameIndex urlIndex totalRecords spinner i (wrapInt (processed + 1)) record =
      .stop events exit) :
    processLoop w nameIndex urlIndex totalRecords spinner i processed (.ok record :: rest) =
      ⟨.read :: events, exit, wrapInt (processed + 1)⟩ := by
  simp [processLoop, h]

theorem processLoop_next (w : World) (nameIndex urlIndex totalRecords : Int) (i : Nat)
    (processed : Int) (record : List String) (rest : List ReadResult) (events : List Event)
    (h : loopBody w nameIndex urlIndex totalRecords spinner i (wrapInt (processed + 1)) record =
      .next events) :
    processLoop w nameIndex urlIndex totalRecords spinner i processed (.ok record :: rest) =
      (processLoop w nameIndex urlIndex totalRecords spinner (i + 1) (wrapInt (processed + 1))
        rest).after (.read :: events) := by
  simp [processLoop, h]

theorem after_events (pre : List Event) (r : Run) : (r.after pre).events = pre ++ r.events := rfl

theorem after_exit (pre : List Event) (r : Run) : (r.after pre).exit = r.exit := rfl

theorem after_processed (pre : List Event) (r : Run) : (r.after pre).processed = r.processed := rfl

theorem displayCalls_append (xs ys : List Event) :
    displayCalls (xs ++ ys) = displayCalls xs ++ displayCalls ys := by
  induction xs with
  | nil => rfl
  | cons x xs ih => cases x <;> simp [displayCalls, ih]

theorem readCalls_append (xs ys : List Event) :
    readCalls (xs ++ ys) = readCalls xs + readCalls ys := by
  simp [readCalls]

theorem recordsRead_cons_ok (record : List String) (rest : List ReadResult) (n : Nat) :
    recordsRead (.ok record :: rest) (n + 1) = recordsRead rest n + 1 := by
  simp [recordsRead, isRecord]

/-- Every HTTP request of the loop started at position `i` is made for a record
at a position from `i` on. -/
theorem processLoop_index (w : World) (nameIndex urlIndex totalRecords : Int)
    (reads : List ReadResult) :
    ∀ (i : Nat) (processed : Int),
      ∀ e ∈ (processLoop w nameIndex urlIndex totalRecords spinner i processed reads).events,
        ∀ j, e.index? = some j → i ≤ j ∧ j < i + reads.length := by
  induction reads with
  | nil =>
    intro i processed e he j hj
    rw [processLoop_nil] at he
    simp at he
    rcases he with rfl | rfl <;> simp [Event.index?] at hj
  | cons x rest ih =>
    intro i processed e he j hj
    cases x with
    | error err =>
      rw [processLoop_error] at he
      simp at he
      subst he
      simp [Event.index?] at hj
    | ok record =>
      have hobs := (loopBody_observed w nameIndex urlIndex totalRecords i
        (wrapInt (processed + 1)) record).1
      cases hb : loopBody w nameIndex urlIndex totalRecords spinner i
          (wrapInt (processed + 1)) record with
      | stop events exit =>
        rw [processLoop_stop _ _ _ _ _ _ _ _ _ _ hb] at he
        rw [hb] at hobs
        simp only [Step.events] at hobs
        simp only [List.mem_cons] at he
        rcases he with rfl | he
        · simp [Event.index?] at hj
        · rcases hobs e he with h | h
          · rw [h] at hj; cases hj
          · rw [h] at hj
            injection hj with hj
            simp only [List.length_cons]
            omega
      | next events =>
        rw [processLoop_next _ _ _ _ _ _ _ _ _ hb, after_events] at he
        rw [hb] at hobs
        simp only [Step.events] at hobs
        simp only [List.cons_append, List.mem_cons, List.mem_append] at he
        rcases he with rfl | he | he
        · simp [Event.index?] at hj
        · rcases hobs e he with h | h
          · rw [h] at hj; cases hj
          · rw [h] at hj
            injection hj with hj
            simp only [List.length_cons]
            omega
        · have := ih (i + 1) (wrapInt (processed + 1)) e he j hj
          simp only [List.length_cons]
          omega

/-- The counter of the loop: it grows by one for each record read, and the
calls of `displayProgress` see the successive counts next to the unchanged
total. -/
theorem processLoop_counter (w : World) (nameIndex urlIndex totalRecords : Int)
    (reads : List ReadResult) :
    ∀ (i : Nat) (processed : Int), 0 ≤ processed → processed + reads.length ≤ maxInt →
      (processLoop w nameIndex urlIndex totalRecords spinner i processed reads).processed =
        processed + recordsRead reads (readCalls
          (processLoop w nameIndex urlIndex totalRecords spinner i processed reads).events) ∧
      displayCalls (processLoop w nameIndex urlIndex totalRecords spinner i processed reads).events
        = (List.range (recordsRead reads (readCalls
            (processLoop w nameIndex urlIndex totalRecords spinner i processed reads).events))).map
          (fun (k : Nat) => (processed + 1 + (k : Int), totalRecords)) ∧
      ((processLoop w nameIndex urlIndex totalRecords spinner i processed reads).exit = .done →
        (processLoop w nameIndex urlIndex totalRecords spinner i processed reads).processed =
          processed + reads.length) := by
  have hmaxv : maxInt = 9223372036854775807 := by decide
  have hminv : minInt = -9223372036854775808 := by decide
  induction reads with
  | nil =>
    intro i processed _ _
    rw [processLoop_nil]
    simp [recordsRead, readCalls, displayCalls]
  | cons x rest ih =>
    intro i processed h0 hmax
    simp only [List.length_cons, Nat.cast_add, Nat.cast_one] at hmax
    cases x with
    | error err =>
      rw [processLoop_error]
      simp [recordsRead, readCalls, displayCalls, isRecord]
    | ok record =>
      have hw : wrapInt (processed + 1) = processed + 1 :=
        wrapInt_of_range _ (by omega) (by omega)
      obtain ⟨_, hdisp, hread, hdone⟩ := loopBody_observed w nameIndex urlIndex totalRecords i
        (wrapInt (processed + 1)) record
      cases hb : loopBody w nameIndex urlIndex totalRecords spinner i
          (wrapInt (processed + 1)) record with
      | stop events exit =>
        rw [hb] at hdisp hread
        simp only [Step.events] at hdisp hread
        have hreads : readCalls (Event.read :: events) = 1 := by
          have := readCalls_append [Event.read] events
          simp only [List.singleton_append] at this
          rw [this, hread]
          rfl
        have hdc : displayCalls (Event.read :: events) = displayCalls events := rfl
        rw [processLoop_stop _ _ _ _ _ _ _ _ _ _ hb]
        refine ⟨?_, ?_, ?_⟩
        · simp only [hreads]
          rw [hw]
          simp [recordsRead, isRecord]
        · simp only [hreads, hdc, hdisp, hw]
          simp [recordsRead, isRecord, List.range_succ]
        · intro hex
          simp only at hex
          subst hex
          exact absurd hb (hdone events)
      | next events =>
        rw [hb] at hdisp hread
        simp only [Step.events] at hdisp hread
        obtain ⟨ih1, ih2, ih3⟩ := ih (i + 1) (wrapInt (processed + 1)) (by omega) (by omega)
        have hreads : ∀ ys, readCalls (Event.read :: events ++ ys) = readCalls ys + 1 := by
          intro ys
          have h1 := readCalls_append (Event.read :: events) ys
          have h2 := readCalls_append [Event.read] events
          simp only [List.singleton_append] at h2
          rw [h1, h2, hread]
          have : readCalls [Event.read] = 1 := rfl
          omega
        have hdc : ∀ ys, displayCalls (Event.read :: events ++ ys) =
            (wrapInt (processed + 1), totalRecords) :: displayCalls ys := by
          intro ys
          have h1 := displayCalls_append (Event.read :: events) ys
          have h2 : displayCalls (Event.read :: events) = displayCalls events := rfl
          rw [h1, h2, hdisp]
          rfl
        rw [processLoop_next _ _ _ _ _ _ _ _ _ hb]
        simp only [after_events, after_exit, after_processed, hreads, hdc, recordsRead_cons_ok]
        refine ⟨?_, ?_, ?_⟩
        · rw [ih1, hw]
          push_cast
          omega
        · rw [ih2, hw, List.range_succ_eq_map]
          simp only [List.map_cons, List.map_map]
          congr 1
          · simp
          · apply List.map_congr_left
            intro k _
            simp only [Function.comp, Nat.succ_eq_add_one]
            push_cast
            congr 1
            omega
        · intro hex
          rw [ih3 hex, hw]
          simp only [List.length_cons]
          push_cast
          omega

theorem processLoop_first_get (w : World) (nameIndex urlIndex totalRecords : Int) (i : Nat)
    (processed : Int) (record : List String) (rest : List ReadResult) (line : Line)
    (name url : String)
    (hd : displayProgress (wrapInt (processed + 1)) totalRecords spinner = .ok line)
    (hn : goIndex record nameIndex = .ok name) (hu : goIndex record urlIndex = .ok url) :
    Event.get i url ∈
      (processLoop w nameIndex urlIndex totalRecords spinner i processed
        (.ok record :: rest)).events := by
  rcases loopBody_cases w nameIndex urlIndex totalRecords i (wrapInt (processed + 1)) record with
    ⟨p, hd2, _⟩ | ⟨line2, p, _, hc, _⟩ | ⟨line2, name2, url2, err, _, _, hu2, _, h⟩ |
    ⟨line2, name2, url2, page, asked, f, _, _, hu2, _, _, h⟩ |
    ⟨line2, name2, url2, page, asked, s, _, _, hu2, _, _, h⟩
  · rw [hd] at hd2
    cases hd2
  · rcases hc with hc | ⟨_, hc⟩
    · rw [hn] at hc
      cases hc
    · rw [hu] at hc
      cases hc
  · rw [hu] at hu2
    injection hu2 with hu2
    subst hu2
    rw [processLoop_next _ _ _ _ _ _ _ _ _ h, after_events]
    simp
  · rw [hu] at hu2
    injection hu2 with hu2
    subst hu2
    rw [processLoop_stop _ _ _ _ _ _ _ _ _ _ h]
    simp
  · rw [hu] at hu2
    injection hu2 with hu2
    subst hu2
    rw [processLoop_next _ _ _ _ _ _ _ _ _ h, after_events]
    simp

/-- What happens at the record of position `j = i + k` once its page is
requested: a failed fetch is skipped and the next record is fetched, a failed
classification ends the run with no request for a later record. -/
theorem processLoop_position (w : World) (nameIndex urlIndex totalRecords : Int)
    (reads : List ReadResult) :
    ∀ (k i j : Nat) (processed : Int), j = i + k → 0 ≤ processed →
      processed + reads.length ≤ maxInt →
      ∀ (record : List String) (url : String),
        reads.get? k = some (.ok record) → goIndex record urlIndex = .ok url →
        Event.get j url ∈
          (processLoop w nameIndex urlIndex totalRecords spinner i processed reads).events →
        (∀ err, (fetchPageContent w j url).2 = .error err →
          Event.print (.fetchFailed url err) ∈
            (processLoop w nameIndex urlIndex totalRecords spinner i processed reads).events ∧
          (∀ body, Event.post j body ∉
            (processLoop w nameIndex urlIndex totalRecords spinner i processed reads).events) ∧
          (∀ record2 name2 url2, reads.get? (k + 1) = some (.ok record2) →
            goIndex record2 nameIndex = .ok name2 → goIndex record2 urlIndex = .ok url2 →
            Event.get (j + 1) url2 ∈
              (processLoop w nameIndex urlIndex totalRecords spinner i processed reads).events)) ∧
        (∀ pageContent f, (fetchPageContent w j url).2 = .ok pageContent →
          (queryModel w j pageContent).2 = .error f →
          (processLoop w nameIndex urlIndex totalRecords spinner i processed reads).exit =
            .fatal f ∧
          ∀ m, j < m → ∀ x,
            Event.get m x ∉
              (processLoop w nameIndex urlIndex totalRecords spinner i processed reads).events ∧
            Event.post m x ∉
              (processLoop w nameIndex urlIndex totalRecords spinner i processed reads).events) := by
  have hmaxv : maxInt = 9223372036854775807 := by decide
  have hminv : minInt = -9223372036854775808 := by decide
  induction reads with
  | nil =>
    intro k i j processed _ _ _ record url hget
    simp at hget
  | cons x rest ih =>
    intro k i j processed hj h0 hmax record url hget hu hreached
    simp only [List.length_cons, Nat.cast_add, Nat.cast_one] at hmax
    have hw : wrapInt (processed + 1) = processed + 1 :=
      wrapInt_of_range _ (by omega) (by omega)
    cases x with
    | error err0 =>
      rw [processLoop_error] at hreached
      simp at hreached
    | ok record0 =>
      have hobs := (loopBody_observed w nameIndex urlIndex totalRecords i
        (wrapInt (processed + 1)) record0).1
      have hrest := processLoop_index w nameIndex urlIndex totalRecords rest (i + 1)
        (wrapInt (processed + 1))
      cases k with
      | zero =>
        simp only [List.get?_cons_zero, Option.some.injEq, Except.ok.injEq] at hget
        subst hget
        simp only [Nat.add_zero] at hj
        subst hj
        rcases loopBody_cases w nameIndex urlIndex totalRecords j (wrapInt (processed + 1))
            record0 with
          ⟨p, _, h⟩ | ⟨line2, p, _, _, h⟩ | ⟨line2, name2, url2, err2, _, _, hu2, hf2, h⟩ |
          ⟨line2, name2, url2, page2, asked, f2, _, _, hu2, hf2, hq2, h⟩ |
          ⟨line2, name2, url2, page2, asked, s2, _, _, hu2, hf2, hq2, h⟩
        · rw [processLoop_stop _ _ _ _ _ _ _ _ _ _ h] at hreached
          simp at hreached
        · rw [processLoop_stop _ _ _ _ _ _ _ _ _ _ h] at hreached
          simp at hreached
        · rw [hu] at hu2
          injection hu2 with hu2
          subst hu2
          rw [processLoop_next _ _ _ _ _ _ _ _ _ h, after_events]
          constructor
          · intro err herr
            rw [hf2] at herr
            injection herr with herr
            subst herr
            refine ⟨by simp, ?_, ?_⟩
            · intro body hmem
              simp only [List.cons_append, List.mem_cons, List.mem_append, List.mem_nil_iff,
                or_false, false_or, reduceCtorEq] at hmem
              have := hrest _ hmem j rfl
              omega
            · intro record2 name2b url2b hget2 hn2 hu2b
              simp only [List.get?_cons_succ] at hget2
              cases rest with
              | nil => simp at hget2
              | cons y rest2 =>
                simp only [List.get?_cons_zero, Option.some.injEq] at hget2
                subst hget2
                simp only [List.length_cons, Nat.cast_add, Nat.cast_one] at hmax
                obtain ⟨line3, hd3⟩ := displayProgress_ok (wrapInt (wrapInt (processed + 1) + 1))
                  totalRecords
                  (by rw [hw, wrapInt_of_range _ (by omega) (by omega)]; omega)
                  (by rw [hw, wrapInt_of_range _ (by omega) (by omega)]; omega)
                have := processLoop_first_get w nameIndex urlIndex totalRecords (j + 1)
                  (wrapInt (processed + 1)) record2 rest2 line3 name2b url2b hd3 hn2 hu2b
                exact List.mem_append_right _ this
          · intro pageContent f hok
            rw [hf2] at hok
            cases hok
        · rw [hu] at hu2
          injection hu2 with hu2
          subst hu2
          rw [processLoop_stop _ _ _ _ _ _ _ _ _ _ h]
          rw [h] at hobs
          simp only [Step.events] at hobs
          constructor
          · intro err herr
            rw [hf2] at herr
            cases herr
          · intro pageContent f hok hqf
            rw [hf2] at hok
            injection hok with hok
            subst hok
            rw [hq2] at hqf
            injection hqf with hqf
            subst hqf
            refine ⟨rfl, ?_⟩
            intro m hm x
            constructor
            · intro hmem
              simp only [List.mem_cons, reduceCtorEq, false_or] at hmem
              rcases hobs _ hmem with hx | hx
              · simp [Event.index?] at hx
              · simp only [Event.index?, Option.some.injEq] at hx
                omega
            · intro hmem
              simp only [List.mem_cons, reduceCtorEq, false_or] at hmem
              rcases hobs _ hmem with hx | hx
              · simp [Event.index?] at hx
              · simp only [Event.index?, Option.some.injEq] at hx
                omega
        · rw [hu] at hu2
          injection hu2 with hu2
          subst hu2
          constructor
          · intro err herr
            rw [hf2] at herr
            cases herr
          · intro pageContent f hok hqf
            rw [hf2] at hok
            injection hok with hok
            subst hok
            rw [hq2] at hqf
            cases hqf
      | succ k =>
        simp only [List.get?_cons_succ] at hget
        have hlen : k < rest.length := by
          rcases Nat.lt_or_ge k rest.length with h | h
          · exact h
          · rw [List.get?_eq_none.mpr h] at hget
            cases hget
        cases hb : loopBody w nameIndex urlIndex totalRecords spinner i
            (wrapInt (processed + 1)) record0 with
        | stop events exit =>
          rw [hb] at hobs
          simp only [Step.events] at hobs
          rw [processLoop_stop _ _ _ _ _ _ _ _ _ _ hb] at hreached
          simp only [List.mem_cons, reduceCtorEq, false_or] at hreached
          rcases hobs _ hreached with hx | hx
          · simp [Event.index?] at hx
          · simp only [Event.index?, Option.some.injEq] at hx
            omega
        | next events =>
          rw [hb] at hobs
          simp only [Step.events] at hobs
          have hnot : ∀ e ∈ events, ∀ m, i < m → e.index? ≠ some m := by
            intro e he m hm hx
            rcases hobs e he with h | h
            · rw [h] at hx
              cases hx
            · rw [h] at hx
              injection hx with hx
              omega
          rw [processLoop_next _ _ _ _ _ _ _ _ _ hb, after_events, after_exit]
          rw [processLoop_next _ _ _ _ _ _ _ _ _ hb, after_events] at hreached
          simp only [List.cons_append, List.mem_cons, List.mem_append, reduceCtorEq,
            false_or] at hreached
          have hreached2 : Event.get j url ∈
              (processLoop w nameIndex urlIndex totalRecords spinner (i + 1)
                (wrapInt (processed + 1)) rest).events := by
            rcases hreached with h | h
            · exact absurd rfl (hnot _ h j (by omega))
            · exact h
          obtain ⟨ih1, ih2⟩ := ih k (i + 1) j (wrapInt (processed + 1)) (by omega) (by omega)
            (by omega) record url hget hu hreached2
          constructor
          · intro err herr
            obtain ⟨a1, a2, a3⟩ := ih1 err herr
            refine ⟨?_, ?_, ?_⟩
            · exact List.mem_append_right _ a1
            · intro body hmem
              simp only [List.cons_append, List.mem_cons, List.mem_append, reduceCtorEq,
                false_or] at hmem
              rcases hmem with h | h
              · exact hnot _ h j (by omega) rfl
              · exact a2 body h
            · intro record2 name2 url2 hget2 hn2 hu2
              simp only [List.get?_cons_succ] at hget2
              exact List.mem_append_right _ (a3 record2 name2 url2 hget2 hn2 hu2)
          · intro pageContent f hok hqf
            obtain ⟨b1, b2⟩ := ih2 pageContent f hok hqf
            refine ⟨b1, ?_⟩
            intro m hm x
            constructor
            · intro hmem
              simp only [List.cons_append, List.mem_cons, List.mem_append, reduceCtorEq,
                false_or] at hmem
              rcases hmem with h | h
              · exact hnot _ h m (by omega) rfl
              · exact (b2 m hm x).1 h
            · intro hmem
              simp only [List.cons_append, List.mem_cons, List.mem_append, reduceCtorEq,
                false_or] at hmem
              rcases hmem with h | h
              · exact hnot _ h m (by omega) rfl
              · exact (b2 m hm x).2 h

theorem postData_error_kind (w : World) (i : Nat) (data : String) (f : Fatal)
    (h : (postData w i data).2 = .error f) : f.fromClassifier = true := by
  unfold postData at h
  by_cases hkey : w.getenv "OPENAI_API_KEY" = ""
  · simp only [hkey, if_true] at h
    injection h with h
    subst h
    rfl
  · simp only [hkey, if_false] at h
    cases hp : w.httpPost i data (w.getenv "OPENAI_API_KEY") with
    | failed err =>
      simp only [hp] at h
      injection h with h
      subst h
      rfl
    | response code status body =>
      simp only [hp] at h
      by_cases hc : code = 200
      · simp only [hc, ne_eq, not_true_eq_false, if_false] at h
        cases hdec : w.decode body with
        | error err =>
          simp only [hdec] at h
          injection h with h
          subst h
          rfl
        | ok res =>
          simp only [hdec] at h
          cases hch : res.Choices with
          | nil =>
            simp only [hch] at h
            injection h with h
            subst h
            rfl
          | cons c cs =>
            simp only [hch] at h
            cases h
      · simp only [ne_eq, hc, not_false_eq_true, if_true] at h
        injection h with h
        subst h
        rfl

theorem queryModel_error_kind (w : World) (i : Nat) (pageContent : String) (f : Fatal)
    (h : (queryModel w i pageContent).2 = .error f) : f.fromClassifier = true := by
  unfold queryModel at h
  cases hm : w.marshal (queryRequest pageContent) with
  | error err =>
    simp only [hm] at h
    injection h with h
    subst h
    rfl
  | ok jsonData =>
    simp only [hm] at h
    exact postData_error_kind w i jsonData f h

/-- How the loop can end: normally, by a panic, by an unreadable CSV row, or by
a fatal condition of the classification call. -/
theorem processLoop_exit (w : World) (nameIndex urlIndex totalRecords : Int)
    (reads : List ReadResult) :
    ∀ (i : Nat) (processed : Int) (f : Fatal),
      (processLoop w nameIndex urlIndex totalRecords spinner i processed reads).exit = .fatal f →
      f.fromClassifier = true ∨ ∃ err, f = .readRecord err := by
  induction reads with
  | nil =>
    intro i processed f h
    rw [processLoop_nil] at h
    cases h
  | cons x rest ih =>
    intro i processed f h
    cases x with
    | error err =>
      rw [processLoop_error] at h
      injection h with h
      exact Or.inr ⟨err, h.symm⟩
    | ok record =>
      rcases loopBody_cases w nameIndex urlIndex totalRecords i (wrapInt (processed + 1))
          record with
        ⟨p, _, hb⟩ | ⟨line2, p, _, _, hb⟩ | ⟨line2, name2, url2, err2, _, _, _, _, hb⟩ |
        ⟨line2, name2, url2, page2, asked, f2, _, _, _, _, hq2, hb⟩ |
        ⟨line2, name2, url2, page2, asked, s2, _, _, _, _, _, hb⟩
      · rw [processLoop_stop _ _ _ _ _ _ _ _ _ _ hb] at h
        cases h
      · rw [processLoop_stop _ _ _ _ _ _ _ _ _ _ hb] at h
        cases h
      · rw [processLoop_next _ _ _ _ _ _ _ _ _ hb, after_exit] at h
        exact ih _ _ f h
      · rw [processLoop_stop _ _ _ _ _ _ _ _ _ _ hb] at h
        injection h with h
        subst h
        have hq3 : (queryModel w i page2).2 = .error f2 := by rw [hq2]
        exact Or.inl (queryModel_error_kind w i page2 f2 hq3)
      · rw [processLoop_next _ _ _ _ _ _ _ _ _ hb, after_exit] at h
        exact ih _ _ f h

/-- Without the credential the loop never posts, and it ends fatally as soon
as a page fetch succeeds. -/
theorem processLoop_no_key (w : World) (nameIndex urlIndex totalRecords : Int)
    (hkey : w.getenv "OPENAI_API_KEY" = "") (reads : List ReadResult) :
    ∀ (i : Nat) (processed : Int),
      (∀ j body, Event.post j body ∉
        (processLoop w nameIndex urlIndex totalRecords spinner i processed reads).events) ∧
      (∀ j url pageContent,
        Event.get j url ∈
          (processLoop w nameIndex urlIndex totalRecords spinner i processed reads).events →
        (fetchPageContent w j url).2 = .ok pageContent →
        (processLoop w nameIndex urlIndex totalRecords spinner i processed reads).exit =
            .fatal .noApiKey ∨
          ∃ err, (processLoop w nameIndex urlIndex totalRecords spinner i processed reads).exit =
            .fatal (.encode err)) := by
  induction reads with
  | nil =>
    intro i processed
    rw [processLoop_nil]
    simp
  | cons x rest ih =>
    intro i processed
    cases x with
    | error err =>
      rw [processLoop_error]
      simp
    | ok record =>
      obtain ⟨ih1, ih2⟩ := ih (i + 1) (wrapInt (processed + 1))
      rcases loopBody_cases w nameIndex urlIndex totalRecords i (wrapInt (processed + 1))
          record with
        ⟨p, _, hb⟩ | ⟨line2, p, _, _, hb⟩ | ⟨line2, name2, url2, err2, _, _, _, hf2, hb⟩ |
        ⟨line2, name2, url2, page2, asked, f2, _, _, _, _, hq2, hb⟩ |
        ⟨line2, name2, url2, page2, asked, s2, _, _, _, _, hq2, hb⟩
      · rw [processLoop_stop _ _ _ _ _ _ _ _ _ _ hb]
        simp
      · rw [processLoop_stop _ _ _ _ _ _ _ _ _ _ hb]
        simp
      · rw [processLoop_next _ _ _ _ _ _ _ _ _ hb, after_events, after_exit]
        constructor
        · intro j body hmem
          simp only [List.cons_append, List.mem_cons, List.mem_append, List.mem_nil_iff,
            or_false, false_or, reduceCtorEq] at hmem
          exact ih1 j body hmem
        · intro j url page hmem hok
          simp only [List.cons_append, List.mem_cons, List.mem_append, List.mem_nil_iff,
            or_false, false_or, reduceCtorEq, Event.get.injEq] at hmem
          rcases hmem with ⟨rfl, rfl⟩ | hmem
          · rw [hf2] at hok
            cases hok
          · exact ih2 j url page hmem hok
      · obtain ⟨hk1, hk2⟩ := queryModel_no_key w i page2 hkey
        rw [hq2] at hk1 hk2
        simp only at hk1 hk2
        subst hk1
        rw [processLoop_stop _ _ _ _ _ _ _ _ _ _ hb]
        constructor
        · intro j body hmem
          simp at hmem
        · intro j url page _ _
          rcases hk2 with h | ⟨err, h⟩
          · injection h with h
            subst h
            exact Or.inl rfl
          · injection h with h
            subst h
            exact Or.inr ⟨err, rfl⟩
      · obtain ⟨_, hk2⟩ := queryModel_no_key w i page2 hkey
        rw [hq2] at hk2
        rcases hk2 with h | ⟨err, h⟩ <;> cases h

/-- Without the credential nothing follows a page fetch that succeeds: its
request is the last event of the loop. -/
theorem processLoop_no_key_last (w : World) (nameIndex urlIndex totalRecords : Int)
    (hkey : w.getenv "OPENAI_API_KEY" = "") (reads : List ReadResult) :
    ∀ (i : Nat) (processed : Int) (j : Nat) (url pageContent : String),
      Event.get j url ∈
        (processLoop w nameIndex urlIndex totalRecords spinner i processed reads).events →
      (fetchPageContent w j url).2 = .ok pageContent →
      (processLoop w nameIndex urlIndex totalRecords spinner i processed reads).events.getLast? =
        some (Event.get j url) := by
  induction reads with
  | nil =>
    intro i processed j url page hmem _
    rw [processLoop_nil] at hmem
    simp at hmem
  | cons x rest ih =>
    intro i processed j url page hmem hok
    cases x with
    | error err =>
      rw [processLoop_error] at hmem
      simp at hmem
    | ok record =>
      rcases loopBody_cases w nameIndex urlIndex totalRecords i (wrapInt (processed + 1))
          record with
        ⟨p, _, hb⟩ | ⟨line2, p, _, _, hb⟩ | ⟨line2, name2, url2, err2, _, _, _, hf2, hb⟩ |
        ⟨line2, name2, url2, page2, asked, f2, _, _, _, _, hq2, hb⟩ |
        ⟨line2, name2, url2, page2, asked, s2, _, _, _, _, hq2, hb⟩
      · rw [processLoop_stop _ _ _ _ _ _ _ _ _ _ hb] at hmem
        simp at hmem
      · rw [processLoop_stop _ _ _ _ _ _ _ _ _ _ hb] at hmem
        simp at hmem
      · rw [processLoop_next _ _ _ _ _ _ _ _ _ hb, after_events] at hmem
        rw [processLoop_next _ _ _ _ _ _ _ _ _ hb, after_events]
        simp only [List.cons_append, List.mem_cons, List.mem_append, List.mem_nil_iff,
          or_false, false_or, reduceCtorEq, Event.get.injEq] at hmem
        rcases hmem with ⟨rfl, rfl⟩ | hmem
        · rw [hf2] at hok
          cases hok
        · have hlast := ih (i + 1) (wrapInt (processed + 1)) j url page hmem hok
          rw [List.getLast?_append, hlast]
          rfl
      · obtain ⟨hk1, _⟩ := queryModel_no_key w i page2 hkey
        rw [hq2] at hk1
        simp only at hk1
        subst hk1
        rw [processLoop_stop _ _ _ _ _ _ _ _ _ _ hb] at hmem
        rw [processLoop_stop _ _ _ _ _ _ _ _ _ _ hb]
        simp only [List.append_nil, List.mem_cons, List.mem_nil_iff, or_false, false_or,
          reduceCtorEq, Event.get.injEq] at hmem
        obtain ⟨rfl, rfl⟩ := hmem
        simp
      · obtain ⟨_, hk2⟩ := queryModel_no_key w i page2 hkey
        rw [hq2] at hk2
        rcases hk2 with h | ⟨err, h⟩ <;> cases h

/-- Every run of the loop calls `reader.Read()` at least once. -/
theorem processLoop_reads_once (w : World) (nameIndex urlIndex totalRecords : Int)
    (reads : List ReadResult) (i : Nat) (processed : Int) :
    1 ≤ readCalls
      (processLoop w nameIndex urlIndex totalRecords spinner i processed reads).events := by
  have hcons : ∀ es : List Event, 1 ≤ readCalls (Event.read :: es) := by
    intro es
    have := readCalls_append [Event.read] es
    simp only [List.singleton_append] at this
    rw [this]
    have h1 : readCalls [Event.read] = 1 := rfl
    omega
  cases reads with
  | nil =>
    rw [processLoop_nil]
    exact hcons _
  | cons x rest =>
    cases x with
    | error err =>
      rw [processLoop_error]
      exact hcons _
    | ok record =>
      cases hb : loopBody w nameIndex urlIndex totalRecords spinner i
          (wrapInt (processed + 1)) record with
      | stop events exit =>
        rw [processLoop_stop _ _ _ _ _ _ _ _ _ _ hb]
        exact hcons _
      | next events =>
        rw [processLoop_next _ _ _ _ _ _ _ _ _ hb, after_events]
        exact hcons _

/-! ## `processRecords` -/

theorem lineCounter_ok (w : World) (fileName data : String)
    (hread : w.osReadFile fileName = .ok data) :
    lineCounter w fileName = .ok ((data.data.count '\n' : Nat) : Int) := by
  simp [lineCounter, hread]

theorem processRecords_noRecords (w : World) (fileName data : String)
    (hopen : w.osOpen fileName = .ok ()) (hread : w.osReadFile fileName = .ok data)
    (hcount : data.data.count '\n' ≤ 1) :
    processRecords w fileName = ⟨[], .fatal .noRecords, 0⟩ := by
  have hc : ((data.data.count '\n' : Nat) : Int) ≤ 1 := by exact_mod_cast hcount
  unfold processRecords
  simp only [hopen, lineCounter_ok w fileName data hread, hc, if_true]

theorem processRecords_checked (w : World) (fileName data : String)
    (hopen : w.osOpen fileName = .ok ()) (hread : w.osReadFile fileName = .ok data)
    (hcount : 1 < data.data.count '\n') :
    processRecords w fileName =
      match w.reads with
      | [] => ⟨[.read], .fatal (.readHeaders "EOF"), 0⟩
      | .error err :: _ => ⟨[.read], .fatal (.readHeaders err), 0⟩
      | .ok headers :: rest =>
        if findIndex headers "name" = -1 then ⟨[.read], .fatal .missingName, 0⟩
        else if findIndex headers "url" = -1 then ⟨[.read], .fatal .missingUrl, 0⟩
        else (processEachRecord w rest (findIndex headers "name") (findIndex headers "url")
          (((data.data.count '\n' : Nat) : Int) - 1)).after [.read] := by
  have hc : ¬ ((data.data.count '\n' : Nat) : Int) ≤ 1 := by
    have : (1 : Int) < ((data.data.count '\n' : Nat) : Int) := by exact_mod_cast hcount
    omega
  unfold processRecords
  simp only [hopen, lineCounter_ok w fileName data hread, hc, if_false]

/-- The shapes of a run of `processRecords`: it ends before the reader is
used, or right after the header was read, or it enters the loop. -/
theorem processRecords_cases (w : World) (fileName : String) :
    (∃ f, processRecords w fileName = ⟨[], .fatal f, 0⟩) ∨
    (∃ f, processRecords w fileName = ⟨[.read], .fatal f, 0⟩) ∨
    (∃ rest nameIndex urlIndex totalRecords,
      processRecords w fileName =
        (processEachRecord w rest nameIndex urlIndex totalRecords).after [.read]) := by
  unfold processRecords
  cases w.osOpen fileName with
  | error err => exact Or.inl ⟨_, rfl⟩
  | ok _ =>
    cases lineCounter w fileName with
    | error err => exact Or.inl ⟨_, rfl⟩
    | ok totalRecords =>
      by_cases hc : totalRecords ≤ 1
      · simp only [hc, if_true]
        exact Or.inl ⟨_, rfl⟩
      · simp only [hc, if_false]
        cases w.reads with
        | nil => exact Or.inr (Or.inl ⟨_, rfl⟩)
        | cons x rest =>
          cases x with
          | error err => exact Or.inr (Or.inl ⟨_, rfl⟩)
          | ok headers =>
            by_cases hn : findIndex headers "name" = -1
            · simp only [hn, if_true]
              exact Or.inr (Or.inl ⟨_, rfl⟩)
            · by_cases hu : findIndex headers "url" = -1
              · simp only [hn, hu, if_true, if_false]
                exact Or.inr (Or.inl ⟨_, rfl⟩)
              · simp only [hn, hu, if_false]
                exact Or.inr (Or.inr ⟨_, _, _, _, rfl⟩)

theorem resultLines_append (xs ys : List Event) :
    resultLines (xs ++ ys) = resultLines xs + resultLines ys := by
  simp [resultLines]

theorem resultLines_cons (e : Event) (es : List Event) :
    resultLines (e :: es) = (if e.isResult = true then 1 else 0) + resultLines es := by
  unfold resultLines
  by_cases h : e.isResult = true
  · rw [List.filter_cons_of_pos h, if_pos h, List.length_cons]
    omega
  · rw [List.filter_cons_of_neg h, if_neg h]
    omega

theorem resultLines_nil : resultLines [] = 0 := rfl

theorem isResult_read : Event.isResult .read = false := rfl

theorem isResult_display (a b : Int) : Event.isResult (.display a b) = false := rfl

theorem isResult_get (i : Nat) (url : String) : Event.isResult (.get i url) = false := rfl

theorem isResult_post (i : Nat) (body : String) : Event.isResult (.post i body) = false := rfl

theorem isResult_fetchFailed (url err : String) :
    Event.isResult (.print (.fetchFailed url err)) = true := rfl

theorem classificationLine_isResult (name s : String) :
    (classificationLine name s).isResult = true := by
  unfold classificationLine
  split
  · rfl
  · split <;> rfl

/-- When every record has its two fields and every classification call
succeeds, the loop prints one classification-or-skip line per record and ends
normally. -/
theorem processLoop_result_lines (w : World) (nameIndex urlIndex totalRecords : Int)
    (hq : ∀ i pageContent, ∃ s, (queryModel w i pageContent).2 = .ok s)
    (rows : List (List String)) :
    ∀ (i : Nat) (processed : Int), 0 ≤ processed → processed + rows.length ≤ maxInt →
      (∀ r ∈ rows, ∃ name url, goIndex r nameIndex = .ok name ∧ goIndex r urlIndex = .ok url) →
      resultLines (processLoop w nameIndex urlIndex totalRecords spinner i processed
        (rows.map .ok)).events = rows.length ∧
      (processLoop w nameIndex urlIndex totalRecords spinner i processed
        (rows.map .ok)).exit = .done := by
  have hmaxv : maxInt = 9223372036854775807 := by decide
  have hminv : minInt = -9223372036854775808 := by decide
  induction rows with
  | nil =>
    intro i processed _ _ _
    constructor <;> simp [processLoop_nil, resultLines, Event.isResult, Line.isResult]
  | cons row rows ih =>
    intro i processed h0 hmax hrows
    simp only [List.length_cons, Nat.cast_add, Nat.cast_one] at hmax
    have hw : wrapInt (processed + 1) = processed + 1 :=
      wrapInt_of_range _ (by omega) (by omega)
    obtain ⟨ih1, ih2⟩ := ih (i + 1) (wrapInt (processed + 1)) (by omega) (by omega)
      (fun r hr => hrows r (List.mem_cons_of_mem _ hr))
    obtain ⟨name, url, hn, hu⟩ := hrows row (List.mem_cons_self _ _)
    obtain ⟨line, hd⟩ := displayProgress_ok (wrapInt (processed + 1)) totalRecords
      (by omega) (by omega)
    have hline := displayProgress_not_result _ _ _ _ hd
    simp only [List.map_cons, List.length_cons]
    rcases loopBody_cases w nameIndex urlIndex totalRecords i (wrapInt (processed + 1)) row with
      ⟨p, hd2, _⟩ | ⟨line2, p, _, hc, _⟩ | ⟨line2, name2, url2, err2, hd2, _, _, _, hb⟩ |
      ⟨line2, name2, url2, page2, asked, f2, _, _, _, _, hq2, _⟩ |
      ⟨line2, name2, url2, page2, asked, s2, hd2, _, _, _, hq2, hb⟩
    · rw [hd] at hd2
      cases hd2
    · rcases hc with hc | ⟨_, hc⟩
      · rw [hn] at hc
        cases hc
      · rw [hu] at hc
        cases hc
    · rw [hd] at hd2
      injection hd2 with hd2
      subst hd2
      rw [processLoop_next _ _ _ _ _ _ _ _ _ hb, after_events, after_exit, resultLines_append,
        ih1]
      refine ⟨?_, ih2⟩
      have h1 : Event.isResult (Event.print line) = false := hline
      simp [resultLines_cons, resultLines_nil, h1, isResult_read, isResult_display,
        isResult_get, isResult_fetchFailed]
      omega
    · obtain ⟨s, hs⟩ := hq i page2
      rw [hq2] at hs
      cases hs
    · rw [hd] at hd2
      injection hd2 with hd2
      subst hd2
      have hasked : asked = (queryModel w i page2).1 := by rw [hq2]
      have hcl := classificationLine_isResult name2 s2
      rw [processLoop_next _ _ _ _ _ _ _ _ _ hb, after_events, after_exit, resultLines_append,
        ih1]
      refine ⟨?_, ih2⟩
      rcases queryModel_events w i page2 with h0 | ⟨body, h1⟩
      · rw [h0] at hasked
        subst hasked
        have e1 : Event.isResult (Event.print line) = false := hline
        have e2 : Event.isResult (Event.print (classificationLine name2 s2)) = true := hcl
        simp [resultLines_cons, resultLines_nil, e1, e2, isResult_read, isResult_display,
          isResult_get, isResult_post]
        omega
      · rw [h1] at hasked
        subst hasked
        have e1 : Event.isResult (Event.print line) = false := hline
        have e2 : Event.isResult (Event.print (classificationLine name2 s2)) = true := hcl
        simp [resultLines_cons, resultLines_nil, e1, e2, isResult_read, isResult_display,
          isResult_get, isResult_post]
        omega

theorem findIndex_eq_neg_one (headers : List String) (c : String) :
    findIndex headers c = -1 ↔ ∀ h ∈ headers, h ≠ c := by
  unfold findIndex
  rw [findIndexFrom_eq_neg_one]
  constructor
  · intro h x hx e
    exact h (e ▸ hx)
  · intro h hmem
    exact h c hmem rfl

theorem goIndex_findIndex (headers row : List String) (c : String) (hmem : c ∈ headers)
    (hlen : row.length = headers.length) :
    ∃ field, goIndex row (findIndex headers c) = .ok field := by
  obtain ⟨k, h1, h2, _, _⟩ := findIndexFrom_first 0 headers c hmem
  have h1b : findIndex headers c = (k : Int) := by
    unfold findIndex
    rw [h1]
    congr 1
    omega
  have hk : k < row.length := by omega
  refine ⟨row.get ⟨k, hk⟩, ?_⟩
  unfold goIndex
  rw [h1b, if_neg (by omega), Int.toNat_ofNat, List.get?_eq_get hk]

/-- The positive half of the line count: a file with more than one newline
character, a header holding `name` and `url`, rows as long as the header and
successful classification calls yields one permanent line per data row. -/
theorem processRecords_result_lines (w : World) (fileName data : String)
    (headers : List String) (rows : List (List String))
    (hopen : w.osOpen fileName = .ok ()) (hread : w.osReadFile fileName = .ok data)
    (hcount : 1 < data.data.count '\n')
    (hreads : w.reads = .ok headers :: rows.map .ok)
    (hname : "name" ∈ headers) (hurl : "url" ∈ headers)
    (hrows : ∀ r ∈ rows, r.length = headers.length)
    (hlen : (rows.length : Int) ≤ maxInt)
    (hq : ∀ i pageContent, ∃ s, (queryModel w i pageContent).2 = .ok s) :
    resultLines (processRecords w fileName).events = rows.length ∧
    (processRecords w fileName).exit = .done := by
  have hn : ¬ findIndex headers "name" = -1 := by
    rw [findIndex_eq_neg_one]
    intro h
    exact h "name" hname rfl
  have hu : ¬ findIndex headers "url" = -1 := by
    rw [findIndex_eq_neg_one]
    intro h
    exact h "url" hurl rfl
  rw [processRecords_checked w fileName data hopen hread hcount, hreads]
  simp only [hn, hu, if_false, after_events, after_exit]
  have := processLoop_result_lines w (findIndex headers "name") (findIndex headers "url")
    (((data.data.count '\n' : Nat) : Int) - 1) hq rows 0 0 (le_refl _) (by omega)
    (fun r hr => by
      obtain ⟨a, ha⟩ := goIndex_findIndex headers r "name" hname (hrows r hr)
      obtain ⟨b, hb⟩ := goIndex_findIndex headers r "url" hurl (hrows r hr)
      exact ⟨a, b, ha, hb⟩)
  unfold processEachRecord
  rw [resultLines_append, this.1]
  exact ⟨by simp [resultLines, Event.isResult], this.2⟩

/-! ## Claims -/

/-- C10: `findIndex headers c` is `-1` exactly when no header equals `c`;
otherwise it is the smallest zero-based position `i` with `headers[i] = c`,
and `0 ≤ i < len(headers)`. -/
theorem findIndex_spec (headers : List String) (c : String) :
    (findIndex headers c = -1 ↔ ∀ h ∈ headers, h ≠ c) ∧
    (c ∈ headers →
      ∃ i : Nat, findIndex headers c = (i : Int) ∧
        0 ≤ findIndex headers c ∧ findIndex headers c < (headers.length : Int) ∧
        headers.get? i = some c ∧ ∀ j, j < i → headers.get? j ≠ some c) := by
  constructor
  · unfold findIndex
    rw [findIndexFrom_eq_neg_one]
    constructor
    · intro h x hx e
      exact h (e ▸ hx)
    · intro h hmem
      exact h c hmem rfl
  · intro hmem
    obtain ⟨i, h1, h2, h3, h4⟩ := findIndexFrom_first 0 headers c hmem
    have h1b : findIndex headers c = (i : Int) := by
      unfold findIndex
      rw [h1]
      congr 1
      omega
    refine ⟨i, h1b, ?_, ?_, h3, h4⟩
    · rw [h1b]; omega
    · rw [h1b]; omega

/-- C4 (counterexample): at `k = 92233720368547759`, `n = 1` the product
`k * 100` exceeds the largest Go `int`; the rendered percentage is the wrapped
value `-9223372036854775716`, not `floor(k * 100 / n)`. -/
theorem displayProgress_overflow :
    (0 : Int) < 1 ∧ (1 : Int) ≤ 92233720368547759 ∧ (92233720368547759 : Int) ≤ maxInt ∧
    displayProgress 92233720368547759 1 spinner =
      .ok (.progress (-9223372036854775716) "-") ∧
    displayProgress 92233720368547759 1 spinner ≠
      .ok (.progress (92233720368547759 * 100 / 1) "-") := by
  decide

/-- C4 (amended): for every total `n > 0` and every count `k ≥ 1` whose product
`k * 100` fits a Go `int`, `displayProgress k n spinner` prints the percentage
`floor(k * 100 / n)` and the glyph at index `(k - 1) mod 4` of the spinner; the
index lies in `0..3`, so no lookup is out of range and nothing divides by zero.
For every `n ≤ 0` it prints the invalid-progress message, whatever the count
and the spinner. -/
theorem displayProgress_spec (k n : Int) :
    (0 < n → 1 ≤ k → k * 100 ≤ maxInt →
      0 ≤ (k - 1) % 4 ∧ (k - 1) % 4 < 4 ∧
      ∃ glyph, spinner.get? ((k - 1) % 4).toNat = some glyph ∧
        displayProgress k n spinner = .ok (.progress (k * 100 / n) glyph)) ∧
    (n ≤ 0 → ∀ glyphs, displayProgress k n glyphs = .ok .invalidProgress) := by
  constructor
  · intro hn hk hmul
    exact ⟨by omega, by omega, displayProgress_valid k n hn hk hmul⟩
  · intro hn glyphs
    exact displayProgress_invalid k n glyphs hn

/-- C4 (witness): record 3 of 7 shows 42 percent and the glyph `-`. -/
theorem displayProgress_spec_witness :
    (0 : Int) < 7 ∧ (1 : Int) ≤ 3 ∧ (3 : Int) * 100 ≤ maxInt ∧
    ∃ glyph, spinner.get? (((3 : Int) - 1) % 4).toNat = some glyph ∧
      displayProgress 3 7 spinner = .ok (.progress (3 * 100 / 7) glyph) :=
  ⟨by decide, by decide, by decide,
    ((displayProgress_spec 3 7).1 (by decide) (by decide) (by decide)).2.2⟩

/-- C1: the classification line is the accepting message exactly when the
trimmed answer is `yes`, the not-accepting message exactly when it is `no`, and
the undetermined message for every other answer; the comparison is exact and
case-sensitive, the trimmed answer is `yes` (or `no`) exactly when the answer is
that word between two runs of white space, and an iteration of the loop whose
page fetch succeeded and whose classifier returned `s` prints this line last. -/
theorem classification_mapping (name s : String) :
    (classificationLine name s = .accepting name ↔ TrimSpace s = "yes") ∧
    (classificationLine name s = .notAccepting name ↔ TrimSpace s = "no") ∧
    (classificationLine name s = .undetermined name ↔
      TrimSpace s ≠ "yes" ∧ TrimSpace s ≠ "no") ∧
    (TrimSpace s = "yes" ↔ ∃ l r, (∀ c ∈ l, isSpace c = true) ∧ (∀ c ∈ r, isSpace c = true) ∧
      s.data = l ++ ['y', 'e', 's'] ++ r) ∧
    (TrimSpace s = "no" ↔ ∃ l r, (∀ c ∈ l, isSpace c = true) ∧ (∀ c ∈ r, isSpace c = true) ∧
      s.data = l ++ ['n', 'o'] ++ r) ∧
    classificationLine name "maybe" = .undetermined name ∧
    classificationLine name "" = .undetermined name ∧
    classificationLine name "Yes please" = .undetermined name ∧
    classificationLine name "YES" = .undetermined name ∧
    classificationLine name " yes\n" = .accepting name ∧
    classificationLine name "\tno " = .notAccepting name ∧
    (∀ (w : World) (nameIndex urlIndex totalRecords : Int) (i : Nat) (processed : Int)
        (record : List String) (line : Line) (url pageContent : String) (asked : List Event),
      displayProgress processed totalRecords spinner = .ok line →
      goIndex record nameIndex = .ok name →
      goIndex record urlIndex = .ok url →
      (fetchPageContent w i url).2 = .ok pageContent →
      queryModel w i pageContent = (asked, .ok s) →
      loopBody w nameIndex urlIndex totalRecords spinner i processed record =
        .next ([.display processed totalRecords, .print line, .get i url] ++ asked ++
          [.print (classificationLine name s)])) := by
  have hyes : ¬ ("yes" = "no") := by decide
  refine ⟨?_, ?_, ?_, ?_, ?_, ?_, ?_, ?_, ?_, ?_, ?_, ?_⟩
  · unfold classificationLine
    by_cases h1 : TrimSpace s = "yes"
    · simp [h1]
    · by_cases h2 : TrimSpace s = "no" <;> simp [h1, h2]
  · unfold classificationLine
    by_cases h1 : TrimSpace s = "yes"
    · simp [h1]
    · by_cases h2 : TrimSpace s = "no" <;> simp [h1, h2]
  · unfold classificationLine
    by_cases h1 : TrimSpace s = "yes"
    · simp [h1]
    · by_cases h2 : TrimSpace s = "no" <;> simp [h1, h2]
  · rw [TrimSpace_eq_iff]
    exact trimSpaceChars_eq_iff s.data ['y', 'e', 's'] ['e', 's'] ['e', 'y'] 'y' 's'
      rfl rfl (by decide) (by decide)
  · rw [TrimSpace_eq_iff]
    exact trimSpaceChars_eq_iff s.data ['n', 'o'] ['o'] ['n'] 'n' 'o'
      rfl rfl (by decide) (by decide)
  · have h1 : TrimSpace "maybe" ≠ "yes" := by decide
    have h2 : TrimSpace "maybe" ≠ "no" := by decide
    simp [classificationLine, h1, h2]
  · have h1 : TrimSpace "" ≠ "yes" := by decide
    have h2 : TrimSpace "" ≠ "no" := by decide
    simp [classificationLine, h1, h2]
  · have h1 : TrimSpace "Yes please" ≠ "yes" := by decide
    have h2 : TrimSpace "Yes please" ≠ "no" := by decide
    simp [classificationLine, h1, h2]
  · have h1 : TrimSpace "YES" ≠ "yes" := by decide
    have h2 : TrimSpace "YES" ≠ "no" := by decide
    simp [classificationLine, h1, h2]
  · have h1 : TrimSpace " yes\n" = "yes" := by decide
    simp [classificationLine, h1]
  · have h1 : TrimSpace "\tno " ≠ "yes" := by decide
    have h2 : TrimSpace "\tno " = "no" := by decide
    simp [classificationLine, h1, h2]
  · intro w nameIndex urlIndex totalRecords i processed record line url pageContent asked
      hd hn hu hf hq
    have hf2 : fetchPageContent w i url = ([.get i url], .ok pageContent) := by
      have h1 : (fetchPageContent w i url).1 = [.get i url] := rfl
      exact Prod.ext h1 hf
    unfold loopBody
    simp [hd, hn, hu, hf2, hq]

/-- C8: when the credential is set, so that the completion call is made,
`postData` returns a value exactly when the transport succeeded, the status is
200, the body decodes and the choices list is not empty, and the value is the
trimmed content of the first choice, whatever the other choices and fields are;
a transport error, any other status (logged with the body text that could be
read), a decode failure and an empty choices list all end the process
instead. -/
theorem postData_returns_iff (w : World) (i : Nat) (data : String)
    (hkey : w.getenv "OPENAI_API_KEY" ≠ "") :
    (∀ v, (postData w i data).2 = .ok v ↔
      ∃ status body res choice others,
        w.httpPost i data (w.getenv "OPENAI_API_KEY") = .response 200 status body ∧
        w.decode body = .ok res ∧ res.Choices = choice :: others ∧
        v = TrimSpace choice.Message.Content) ∧
    (∀ err, w.httpPost i data (w.getenv "OPENAI_API_KEY") = .failed err →
      (postData w i data).2 = .error (.send err)) ∧
    (∀ code status body,
      w.httpPost i data (w.getenv "OPENAI_API_KEY") = .response code status body →
      code ≠ 200 → (postData w i data).2 = .error (.status code body.text)) ∧
    (∀ status body err,
      w.httpPost i data (w.getenv "OPENAI_API_KEY") = .response 200 status body →
      w.decode body = .error err → (postData w i data).2 = .error (.decode err)) ∧
    (∀ status body res,
      w.httpPost i data (w.getenv "OPENAI_API_KEY") = .response 200 status body →
      w.decode body = .ok res → res.Choices = [] →
      (postData w i data).2 = .error .noChoices) ∧
    (postData w i data).1 = [.post i data] := by
  refine ⟨?_, ?_, ?_, ?_, ?_, ?_⟩
  · intro v
    unfold postData
    simp only [hkey, if_false]
    cases hp : w.httpPost i data (w.getenv "OPENAI_API_KEY") with
    | failed err => simp
    | response code status body =>
      by_cases hc : code = 200
      · subst hc
        cases hdec : w.decode body with
        | error err =>
          simp only [ne_eq, not_true_eq_false, if_false, hdec]
          constructor
          · intro h
            cases h
          · rintro ⟨status2, body2, res2, choice, others, h1, h2, _, _⟩
            injection h1 with _ _ hb
            subst hb
            rw [hdec] at h2
            cases h2
        | ok res =>
          cases hch : res.Choices with
          | nil =>
            simp only [ne_eq, not_true_eq_false, if_false, hdec, hch]
            constructor
            · intro h
              cases h
            · rintro ⟨status2, body2, res2, choice, others, h1, h2, h3, _⟩
              injection h1 with _ _ hb
              subst hb
              rw [hdec] at h2
              injection h2 with h2
              subst h2
              rw [hch] at h3
              cases h3
          | cons choice others =>
            simp only [ne_eq, not_true_eq_false, if_false, hdec, hch]
            constructor
            · intro h
              injection h with h
              exact ⟨status, body, res, choice, others, rfl, hdec, hch, h.symm⟩
            · rintro ⟨status2, body2, res2, choice2, others2, h1, h2, h3, h4⟩
              injection h1 with _ _ hb
              subst hb
              rw [hdec] at h2
              injection h2 with h2
              subst h2
              rw [hch] at h3
              injection h3 with h3 _
              subst h3
              rw [h4]
      · simp only [ne_eq, hc, not_false_eq_true, if_true]
        constructor
        · intro h
          cases h
        · rintro ⟨status2, body2, res2, choice, others, h1, _⟩
          injection h1 with h1 _ _
          exact absurd h1 hc
  · intro err hp
    simp [postData, hkey, hp]
  · intro code status body hp hc
    simp only [postData, hkey, if_false, hp, ne_eq, hc, not_false_eq_true, if_true,
      readAllIgnoringError]
  · intro status body err hp hdec
    simp [postData, hkey, hp, hdec]
  · intro status body res hp hdec hch
    simp [postData, hkey, hp, hdec, hch]
  · simp [postData, hkey]

/-- C8 (witness): with the credential `sk` and the reply ` yes` followed by a
newline, `postData` returns `yes`. -/
theorem postData_returns_iff_witness :
    (sampleWorld "" [] "sk" " yes\n").getenv "OPENAI_API_KEY" ≠ "" ∧
    (postData (sampleWorld "" [] "sk" " yes\n") 0 "body").2 = .ok "yes" :=
  ⟨by decide,
    ((postData_returns_iff (sampleWorld "" [] "sk" " yes\n") 0 "body" (by decide)).1 "yes").2
      ⟨"200 OK", ⟨" yes\n", none⟩, answer " yes\n", _, [], by decide, rfl, rfl, by decide⟩⟩

/-- C2 (failing input): the file `name,url\nEventA,https://good.example` holds
one data row and a single newline character.  `processRecords` ends with the
no-records error before the reader is used and prints no classification or skip
line, whatever the reader, the fetches and the classifier do; the same row
followed by a newline character gives its one line. -/
theorem unterminated_last_row_is_rejected :
    (processRecords unterminatedWorld "urls.csv").exit = .fatal .noRecords ∧
    (processRecords unterminatedWorld "urls.csv").events = [] ∧
    resultLines (processRecords unterminatedWorld "urls.csv").events = 0 ∧
    unterminatedWorld.reads = [headerRow, rowA] ∧
    (∀ w : World, w.osOpen "urls.csv" = .ok () →
      w.osReadFile "urls.csv" = .ok "name,url\nEventA,https://good.example" →
      processRecords w "urls.csv" = ⟨[], .fatal .noRecords, 0⟩) ∧
    (processRecords terminatedWorld "urls.csv").exit = .done ∧
    resultLines (processRecords terminatedWorld "urls.csv").events = 1 := by
  refine ⟨by decide, by decide, by decide, rfl, ?_, by decide, by decide⟩
  intro w hopen hread
  exact processRecords_noRecords w "urls.csv" _ hopen hread (by decide)

/-- C3: in `processEachRecord`, once the page of the record at position `i` is
requested and a record follows it: when the fetch fails, the skip line with
that URL is printed, no completion request is made for record `i` and the page
of record `i + 1` is requested; when the fetch succeeds and the classification
call fails, the run ends with that fatal error and no page or completion
request is made for any later record. -/
theorem fetch_failure_skips_classifier_failure_halts (w : World) (reads : List ReadResult)
    (nameIndex urlIndex totalRecords : Int) (i : Nat) (record next : List String)
    (url : String)
    (hlen : (reads.length : Int) ≤ maxInt)
    (hrecord : reads.get? i = some (.ok record))
    (hnext : reads.get? (i + 1) = some (.ok next))
    (hurl : goIndex record urlIndex = .ok url)
    (hreached : Event.get i url ∈
      (processEachRecord w reads nameIndex urlIndex totalRecords).events) :
    (∀ err, (fetchPageContent w i url).2 = .error err →
      Event.print (.fetchFailed url err) ∈
        (processEachRecord w reads nameIndex urlIndex totalRecords).events ∧
      (∀ body, Event.post i body ∉
        (processEachRecord w reads nameIndex urlIndex totalRecords).events) ∧
      (∀ name2 url2, goIndex next nameIndex = .ok name2 → goIndex next urlIndex = .ok url2 →
        Event.get (i + 1) url2 ∈
          (processEachRecord w reads nameIndex urlIndex totalRecords).events)) ∧
    (∀ pageContent f, (fetchPageContent w i url).2 = .ok pageContent →
      (queryModel w i pageContent).2 = .error f →
      (processEachRecord w reads nameIndex urlIndex totalRecords).exit = .fatal f ∧
      ∀ m, i < m → ∀ x,
        Event.get m x ∉ (processEachRecord w reads nameIndex urlIndex totalRecords).events ∧
        Event.post m x ∉ (processEachRecord w reads nameIndex urlIndex totalRecords).events) := by
  unfold processEachRecord at *
  obtain ⟨h1, h2⟩ := processLoop_position w nameIndex urlIndex totalRecords reads i 0 i 0
    (by omega) (le_refl _) (by omega) record url hrecord hurl hreached
  refine ⟨?_, h2⟩
  intro err herr
  obtain ⟨a1, a2, a3⟩ := h1 err herr
  exact ⟨a1, a2, fun name2 url2 hn hu => a3 next name2 url2 hnext hn hu⟩

/-- C3 (witness): the page of `EventB` is unreachable: its skip line is printed,
no completion request is made for it and the page of `EventA`, the next
record, is requested.  Without the credential the classification of `EventA`
fails: the run ends there and nothing is requested for `EventB` after it. -/
theorem fetch_failure_skips_classifier_failure_halts_witness :
    (Event.print (.fetchFailed "https://bad.example"
        "failed to fetch URL: dial tcp: no such host") ∈
      (processEachRecord skipWorld [rowB, rowA] 0 1 2).events ∧
    (∀ body, Event.post 0 body ∉ (processEachRecord skipWorld [rowB, rowA] 0 1 2).events) ∧
    Event.get 1 "https://good.example" ∈
      (processEachRecord skipWorld [rowB, rowA] 0 1 2).events) ∧
    ((processEachRecord noKeyWorld [rowA, rowB] 0 1 2).exit = .fatal .noApiKey ∧
    ∀ m, 0 < m → ∀ x,
      Event.get m x ∉ (processEachRecord noKeyWorld [rowA, rowB] 0 1 2).events ∧
      Event.post m x ∉ (processEachRecord noKeyWorld [rowA, rowB] 0 1 2).events) :=
  have h := (fetch_failure_skips_classifier_failure_halts skipWorld [rowB, rowA] 0 1 2 0
    ["EventB", "https://bad.example"] ["EventA", "https://good.example"]
    "https://bad.example" (by decide) (by decide) (by decide) (by decide) (by decide)).1
    "failed to fetch URL: dial tcp: no such host" (by decide)
  ⟨⟨h.1, h.2.1, h.2.2 "EventA" "https://good.example" (by decide) (by decide)⟩,
    (fetch_failure_skips_classifier_failure_halts noKeyWorld [rowA, rowB] 0 1 2 0
      ["EventA", "https://good.example"] ["EventB", "https://bad.example"]
      "https://good.example" (by decide) (by decide) (by decide) (by decide) (by decide)).2
      "<html>Apply now</html>" .noApiKey (by decide) (by decide)⟩

/-- C5 (counterexample): the headers `title,link` lack both columns, yet the
files `title,link\n` and `title,link\nEventA,https://good.example` end with the
no-records error, not with the missing `name` column. -/
theorem missing_columns_not_reported :
    foreignHeaderWorld.reads = [.ok ["title", "link"]] ∧
    "name" ∉ ["title", "link"] ∧ "url" ∉ ["title", "link"] ∧
    (processRecords foreignHeaderWorld "urls.csv").exit = .fatal .noRecords ∧
    (processRecords foreignHeaderWorld "urls.csv").exit ≠ .fatal .missingName ∧
    (processRecords
      (sampleWorld "title,link\nEventA,https://good.example" [.ok ["title", "link"], rowA]
        "sk" "yes") "urls.csv").exit = .fatal .noRecords := by
  decide

/-- C5 (amended): when the header row lacks a field equal to `name` or a field
equal to `url`, a run of `processRecords` ends with a fatal error and makes no
HTTP request; when the file has more than one newline character, so that the
earlier no-records check passes, a missing `name` column is the error reported
(also when `url` is missing too), and a missing `url` column is reported only
when `name` is present. -/
theorem missing_column_is_fatal (w : World) (fileName : String) (headers : List String)
    (rest : List ReadResult) (hreads : w.reads = .ok headers :: rest)
    (hmiss : (∀ h ∈ headers, h ≠ "name") ∨ (∀ h ∈ headers, h ≠ "url")) :
    (∃ f, (processRecords w fileName).exit = .fatal f) ∧
    (∀ e ∈ (processRecords w fileName).events, e.isHttp = false) ∧
    (∀ data, w.osOpen fileName = .ok () → w.osReadFile fileName = .ok data →
      1 < data.data.count '\n' →
      ((∀ h ∈ headers, h ≠ "name") →
        processRecords w fileName = ⟨[.read], .fatal .missingName, 0⟩) ∧
      ("name" ∈ headers → processRecords w fileName = ⟨[.read], .fatal .missingUrl, 0⟩)) := by
  have key : findIndex headers "name" = -1 ∨ findIndex headers "url" = -1 := by
    rcases hmiss with h | h
    · exact Or.inl ((findIndex_eq_neg_one headers "name").2 h)
    · exact Or.inr ((findIndex_eq_neg_one headers "url").2 h)
  have hshape : (∃ f, processRecords w fileName = ⟨[], .fatal f, 0⟩) ∨
      (∃ f, processRecords w fileName = ⟨[.read], .fatal f, 0⟩) := by
    unfold processRecords
    cases w.osOpen fileName with
    | error err => exact Or.inl ⟨_, rfl⟩
    | ok _ =>
      cases lineCounter w fileName with
      | error err => exact Or.inl ⟨_, rfl⟩
      | ok totalRecords =>
        by_cases hc : totalRecords ≤ 1
        · simp only [hc, if_true]
          exact Or.inl ⟨_, rfl⟩
        · simp only [hc, if_false, hreads]
          by_cases hn : findIndex headers "name" = -1
          · simp only [hn, if_true]
            exact Or.inr ⟨_, rfl⟩
          · have hu : findIndex headers "url" = -1 := by
              rcases key with h | h
              · exact absurd h hn
              · exact h
            simp only [hn, hu, if_true, if_false]
            exact Or.inr ⟨_, rfl⟩
  refine ⟨?_, ?_, ?_⟩
  · rcases hshape with ⟨f, h⟩ | ⟨f, h⟩ <;> exact ⟨f, by rw [h]⟩
  · intro e he
    rcases hshape with ⟨f, h⟩ | ⟨f, h⟩
    · rw [h] at he
      simp at he
    · rw [h] at he
      simp only [List.mem_singleton] at he
      subst he
      rfl
  · intro data hopen hread hcount
    rw [processRecords_checked w fileName data hopen hread hcount, hreads]
    constructor
    · intro hname
      have hn := (findIndex_eq_neg_one headers "name").2 hname
      simp only [hn, if_true]
    · intro hname
      have hn : ¬ findIndex headers "name" = -1 := by
        rw [findIndex_eq_neg_one]
        intro h
        exact h "name" hname rfl
      have hu : findIndex headers "url" = -1 := by
        rcases key with h | h
        · exact absurd h hn
        · exact h
      simp only [hn, hu, if_true, if_false]

/-- C5 (witness): with two data rows after the header `title,link` the run ends
with the missing `name` column right after the header was read. -/
theorem missing_column_is_fatal_witness :
    processRecords foreignHeaderRowsWorld "urls.csv" = ⟨[.read], .fatal .missingName, 0⟩ :=
  ((missing_column_is_fatal foreignHeaderRowsWorld "urls.csv" ["title", "link"] [rowA, rowB]
    rfl (Or.inl (by decide))).2.2 _ rfl rfl (by decide)).1 (by decide)

/-- C6 (counterexample): the file `name,url,"a\nb"` followed by a newline
character is one header row and nothing else, yet it holds two newline
characters: the no-records check passes, the header is read, the reader is at
its end and the run ends normally with the closing message. -/
theorem quoted_header_passes_check :
    quotedHeaderWorld.osReadFile "urls.csv" = .ok "name,url,\"a\nb\"\n" ∧
    quotedHeaderWorld.reads = [.ok ["name", "url", "a\nb"]] ∧
    lineCounter quotedHeaderWorld "urls.csv" = .ok 2 ∧
    (processRecords quotedHeaderWorld "urls.csv").events =
      [.read, .read, .print .complete] ∧
    (processRecords quotedHeaderWorld "urls.csv").exit = .done ∧
    (processRecords quotedHeaderWorld "urls.csv").exit ≠ .fatal .noRecords := by
  decide

/-- C6 (amended): for a file that can be opened and read, `processRecords` ends
with the no-records error exactly when the number of newline characters minus
one is at most zero, and then nothing has happened before: the header is not
read and no request is made.  Otherwise the value handed to the loop as the
total is that number of newline characters minus one.  In particular a file
made of one header line that holds no newline character, with or without a
final newline character after it, ends with the no-records error. -/
theorem no_records_check (w : World) (fileName data : String)
    (hopen : w.osOpen fileName = .ok ()) (hread : w.osReadFile fileName = .ok data) :
    ((processRecords w fileName).exit = .fatal .noRecords ↔
      ((data.data.count '\n' : Nat) : Int) - 1 ≤ 0) ∧
    (((data.data.count '\n' : Nat) : Int) - 1 ≤ 0 → (processRecords w fileName).events = []) ∧
    (0 < ((data.data.count '\n' : Nat) : Int) - 1 →
      ∀ headers rest, w.reads = .ok headers :: rest →
        findIndex headers "name" ≠ -1 → findIndex headers "url" ≠ -1 →
        processRecords w fileName =
          (processEachRecord w rest (findIndex headers "name") (findIndex headers "url")
            (((data.data.count '\n' : Nat) : Int) - 1)).after [.read]) ∧
    (∀ header : String, '\n' ∉ header.data → (data = header ∨ data = header ++ "\n") →
      processRecords w fileName = ⟨[], .fatal .noRecords, 0⟩) := by
  refine ⟨?_, ?_, ?_, ?_⟩
  · constructor
    · intro hexit
      by_contra hc
      have hcount : 1 < data.data.count '\n' := by omega
      rw [processRecords_checked w fileName data hopen hread hcount] at hexit
      cases hr : w.reads with
      | nil =>
        rw [hr] at hexit
        cases hexit
      | cons x rest =>
        rw [hr] at hexit
        cases x with
        | error err => cases hexit
        | ok headers =>
          simp only at hexit
          by_cases hn : findIndex headers "name" = -1
          · simp only [hn, if_true] at hexit
            cases hexit
          · by_cases hu : findIndex headers "url" = -1
            · simp only [hn, hu, if_true, if_false] at hexit
              cases hexit
            · simp only [hn, hu, if_false, after_exit] at hexit
              unfold processEachRecord at hexit
              rcases processLoop_exit w _ _ _ rest 0 0 .noRecords hexit with h | ⟨err, h⟩
              · cases h
              · cases h
    · intro hc
      rw [processRecords_noRecords w fileName data hopen hread (by omega)]
  · intro hc
    rw [processRecords_noRecords w fileName data hopen hread (by omega)]
  · intro hc headers rest hreads hn hu
    rw [processRecords_checked w fileName data hopen hread (by omega), hreads]
    simp only [hn, hu, if_false]
  · intro header hnl hdata
    apply processRecords_noRecords w fileName data hopen hread
    have h0 : header.data.count '\n' = 0 := List.count_eq_zero.mpr hnl
    rcases hdata with h | h
    · rw [h, h0]
      omega
    · rw [h, String.data_append, List.count_append, h0]
      decide

/-- C6 (witness): the file `name,url` followed by one newline character. -/
theorem no_records_check_witness :
    processRecords (sampleWorld "name,url\n" [headerRow] "sk" "yes") "urls.csv" =
      ⟨[], .fatal .noRecords, 0⟩ :=
  (no_records_check (sampleWorld "name,url\n" [headerRow] "sk" "yes") "urls.csv" "name,url\n"
    rfl rfl).2.2.2 "name,url" (by decide) (Or.inr (by decide))

/-- C7 (counterexample): the credential is not set.  With a served page the
run reads the header and the record, requests the page and only then ends with
the missing-credential error; with an unreachable page it ends normally. -/
theorem missing_credential_not_immediate :
    noKeyWorld.getenv "OPENAI_API_KEY" = "" ∧
    (main noKeyWorld).events =
      [.read, .read, .display 1 1, .print (.progress 100 "|"),
        .get 0 "https://good.example"] ∧
    (main noKeyWorld).exit = .fatal .noApiKey ∧
    noKeyUnreachableWorld.getenv "OPENAI_API_KEY" = "" ∧
    Event.get 0 "https://bad.example" ∈ (main noKeyUnreachableWorld).events ∧
    (main noKeyUnreachableWorld).exit = .done := by
  decide

/-- C7 (amended): in a run without the credential no completion POST is made,
and whenever a page fetch succeeds the run ends with a fatal error of the
classification call (the missing credential, unless encoding the request
failed first) right after it: that page request is the last event of the run,
which by then has called `reader.Read()` at least twice (header and record), so
the error does not come at startup.  A run whose `.env` file cannot be loaded
ends before any CSV read and any HTTP request. -/
theorem missing_credential (w : World) (hkey : w.getenv "OPENAI_API_KEY" = "") :
    (∀ j body, Event.post j body ∉ (main w).events) ∧
    (∀ j url pageContent, Event.get j url ∈ (main w).events →
      (fetchPageContent w j url).2 = .ok pageContent →
      ((main w).exit = .fatal .noApiKey ∨ ∃ err, (main w).exit = .fatal (.encode err)) ∧
      (main w).events.getLast? = some (Event.get j url) ∧
      2 ≤ readCalls (main w).events) ∧
    (∀ err, w.loadEnv = .error err → main w = ⟨[], .fatal .envLoad, 0⟩) := by
  have hmain : (∃ f, main w = ⟨[], .fatal f, 0⟩) ∨ (∃ f, main w = ⟨[.read], .fatal f, 0⟩) ∨
      (∃ rest nameIndex urlIndex totalRecords,
        main w = (processEachRecord w rest nameIndex urlIndex totalRecords).after [.read]) := by
    unfold main
    cases w.loadEnv with
    | error err => exact Or.inl ⟨_, rfl⟩
    | ok _ => exact processRecords_cases w "urls.csv"
  refine ⟨?_, ?_, ?_⟩
  · intro j body hmem
    rcases hmain with ⟨f, h⟩ | ⟨f, h⟩ | ⟨rest, ni, ui, total, h⟩
    · rw [h] at hmem
      simp at hmem
    · rw [h] at hmem
      simp at hmem
    · rw [h, after_events] at hmem
      simp only [List.singleton_append, List.mem_cons, reduceCtorEq, false_or] at hmem
      exact (processLoop_no_key w ni ui total hkey rest 0 0).1 j body hmem
  · intro j url page hmem hok
    rcases hmain with ⟨f, h⟩ | ⟨f, h⟩ | ⟨rest, ni, ui, total, h⟩
    · rw [h] at hmem
      simp at hmem
    · rw [h] at hmem
      simp at hmem
    · rw [h, after_events] at hmem
      rw [h, after_exit, after_events]
      simp only [List.singleton_append, List.mem_cons, reduceCtorEq, false_or] at hmem
      unfold processEachRecord at *
      refine ⟨(processLoop_no_key w ni ui total hkey rest 0 0).2 j url page hmem hok, ?_, ?_⟩
      · rw [List.getLast?_append,
          processLoop_no_key_last w ni ui total hkey rest 0 0 j url page hmem hok]
        rfl
      · have h1 := processLoop_reads_once w ni ui total rest 0 0
        rw [readCalls_append]
        have h2 : readCalls [Event.read] = 1 := rfl
        omega
  · intro err herr
    unfold main
    rw [herr]

/-- C7 (witness): in the run without credential whose page is served, the
fatal error is the missing credential and the page request is the last event,
after two calls of `reader.Read()`. -/
theorem missing_credential_witness :
    ((main noKeyWorld).exit = .fatal .noApiKey ∨
      ∃ err, (main noKeyWorld).exit = .fatal (.encode err)) ∧
    (main noKeyWorld).events.getLast? = some (Event.get 0 "https://good.example") ∧
    2 ≤ readCalls (main noKeyWorld).events :=
  (missing_credential noKeyWorld (by decide)).2.1 0 "https://good.example"
    "<html>Apply now</html>" (by decide) (by decide)

/-- C9: in `processEachRecord` on a reader that yields fewer than `2^63`
results, the counter ends as the number of records read, the successive calls
of `displayProgress` receive the counts `1, 2, 3, ...` next to the total the
function was given, whatever the fetches and classifications do, and after a
normal end the counter is the number of records of the reader.  In
`processRecords` that total is the number of newline characters minus one. -/
theorem counters_invariant (w : World) (reads : List ReadResult)
    (nameIndex urlIndex totalRecords : Int) (hlen : (reads.length : Int) ≤ maxInt) :
    (processEachRecord w reads nameIndex urlIndex totalRecords).processed =
      recordsRead reads
        (readCalls (processEachRecord w reads nameIndex urlIndex totalRecords).events) ∧
    displayCalls (processEachRecord w reads nameIndex urlIndex totalRecords).events =
      (List.range (recordsRead reads
        (readCalls (processEachRecord w reads nameIndex urlIndex totalRecords).events))).map
        (fun (k : Nat) => ((k : Int) + 1, totalRecords)) ∧
    ((processEachRecord w reads nameIndex urlIndex totalRecords).exit = .done →
      (processEachRecord w reads nameIndex urlIndex totalRecords).processed = reads.length) ∧
    (∀ fileName data headers, w.osOpen fileName = .ok () → w.osReadFile fileName = .ok data →
      1 < data.data.count '\n' → w.reads = .ok headers :: reads →
      findIndex headers "name" ≠ -1 → findIndex headers "url" ≠ -1 →
      ∀ call ∈ displayCalls (processRecords w fileName).events,
        call.2 = ((data.data.count '\n' : Nat) : Int) - 1) := by
  have key := fun total => processLoop_counter w nameIndex urlIndex total reads 0 0
    (le_refl _) (by omega)
  refine ⟨?_, ?_, ?_, ?_⟩
  · unfold processEachRecord
    rw [(key totalRecords).1]
    simp
  · unfold processEachRecord
    rw [(key totalRecords).2.1]
    apply List.map_congr_left
    intro k _
    simp only [Prod.mk.injEq, and_true]
    omega
  · intro hdone
    unfold processEachRecord at *
    rw [(key totalRecords).2.2 hdone]
    simp
  · intro fileName data headers hopen hread hcount hreads hn hu call hcall
    rw [processRecords_checked w fileName data hopen hread hcount, hreads] at hcall
    simp only [hn, hu, if_false, after_events] at hcall
    unfold processEachRecord at hcall
    have h2 := (processLoop_counter w (findIndex headers "name") (findIndex headers "url")
      (((data.data.count '\n' : Nat) : Int) - 1) reads 0 0 (le_refl _) (by omega)).2.1
    rw [displayCalls_append, h2] at hcall
    simp only [displayCalls, List.nil_append, List.mem_map] at hcall
    obtain ⟨k, _, hk⟩ := hcall
    rw [← hk]

/-- C9 (witness): two records, the first page unreachable and the second
served: the counter ends at `2` and the calls were `(1, 2)` and `(2, 2)`. -/
theorem counters_invariant_witness :
    (processEachRecord skipWorld [rowB, rowA] 0 1 2).processed = 2 ∧
    displayCalls (processEachRecord skipWorld [rowB, rowA] 0 1 2).events = [(1, 2), (2, 2)] :=
  have h := counters_invariant skipWorld [rowB, rowA] 0 1 2 (by decide)
  ⟨h.1.trans (by decide), h.2.1.trans (by decide)⟩

end EventChecker
